import Mathlib

/-!
# go-test-sift: the attribution engine and its renderers

A shallow embedding of `src/go-test-sift.go` (package `main`).

* A Go `string` is a `Str`, a list of characters; a line delivered by
  `bufio.Scanner` is a `Str`, and a reader is the list of its lines.  The one
  use of `len` is the difference `len(line) - len(strings.TrimLeft(line, " "))`,
  the number of leading blanks, which is the same counted in bytes or in
  characters.
* The closure `processReader` mutates the captured variables `testBuffers`
  and `summaryRecords` and prints to standard output; the three together are
  the record `Result`, passed explicitly.  Its local variables are the record
  `ReaderState`.
* The map `testBuffers` is an association list with distinct keys, kept in
  order of first insertion.
* Standard output is the list of the printed lines, one entry per
  `fmt.Println` / `fmt.Printf("...\n")` call, without the final newline.
* The embedding is of a run without `-d`: the `[DEBUG]` prints, and the
  counter `lineNumber` only they read, are left out.
* The `-w` mode acts on a file system given as the list of the existing paths;
  `filepath.Join`, the outcome of `os.MkdirAll` and `os.Create`, and the order
  in which a `range` visits the map are parameters, and what the mode does is
  the list of its effects with the exit status.
* The functions of the Go standard library that the program calls
  (`strings.TrimSpace`, `strings.Fields`, ..., and the three regular
  expressions) are defined here after their documented behaviour.
-/

set_option autoImplicit false

/-- A Go string, as the list of its characters. -/
abbrev Str := List Char

namespace unicode

/-- Go `unicode.IsSpace`: the characters with the Unicode White_Space
property. -/
def IsSpace (c : Char) : Bool :=
  let n := c.toNat
  (0x09 ≤ n && n ≤ 0x0d) || n == 0x20 || n == 0x85 || n == 0xa0 || n == 0x1680 ||
    (0x2000 ≤ n && n ≤ 0x200a) || n == 0x2028 || n == 0x2029 || n == 0x202f ||
    n == 0x205f || n == 0x3000

end unicode

namespace strings

/-- Go `strings.HasPrefix`. -/
def HasPrefix (s pre : Str) : Bool := pre.isPrefixOf s

/-- Go `strings.TrimSpace`: leading and trailing white space removed. -/
def TrimSpace (s : Str) : Str := (s.dropWhile unicode.IsSpace).rdropWhile unicode.IsSpace

/-- Go `strings.Fields`: the maximal runs of non-space characters. -/
def Fields (s : Str) : List Str := (s.splitOnP unicode.IsSpace).filter (fun t => !t.isEmpty)

/-- Go `strings.TrimSuffix`: one trailing copy of `suffix` removed, if there. -/
def TrimSuffix (s suffix : Str) : Str :=
  if suffix.isSuffixOf s then s.take (s.length - suffix.length) else s

/-- Go `strings.TrimLeft`: the leading characters that are in `cutset` removed. -/
def TrimLeft (s cutset : Str) : Str := s.dropWhile (fun c => cutset.contains c)

/-- Go `strings.Trim`: the leading and trailing characters that are in `cutset`
removed. -/
def Trim (s cutset : Str) : Str :=
  (s.dropWhile (fun c => cutset.contains c)).rdropWhile (fun c => cutset.contains c)

/-- Go `strings.Repeat`. -/
def Repeat (s : Str) : Nat → Str
  | 0 => []
  | n + 1 => s ++ Repeat s n

end strings

namespace regexp

/-- The class `\s` of Go regular expressions: `[\t\n\f\r ]`. -/
def reSpace (c : Char) : Bool :=
  c == '\t' || c == '\n' || c == '\x0c' || c == '\r' || c == ' '

/-- The first submatch of the expression `^LIT\s+(.*)` on `line`, for a literal
`lit`: `none` when the expression does not match.  `\s+` is greedy and `.`
matches every character but the newline. -/
def FindStringSubmatch (lit : Str) (line : Str) : Option Str :=
  if lit.isPrefixOf line then
    match line.drop lit.length with
    | [] => none
    | c :: rest =>
      if reSpace c then some (((c :: rest).dropWhile reSpace).takeWhile (fun d => d != '\n'))
      else none
  else none

/-- Go `(*Regexp).MatchString` for the expression `^LIT\s+(.*)`. -/
def MatchString (lit : Str) (line : Str) : Bool := (FindStringSubmatch lit line).isSome

end regexp

/-- The literal of `runRegex`, the expression `^=== RUN\s+(.*)`. -/
def runRegex : Str := "=== RUN".toList

/-- The literal of `nameRegex`, the expression `^=== NAME\s+(.*)`. -/
def nameRegex : Str := "=== NAME".toList

/-- The literal of `contRegex`, the expression `^=== CONT\s+(.*)`. -/
def contRegex : Str := "=== CONT".toList

/-- The struct `TestSummary`. -/
structure TestSummary where
  Status : Str
  Name : Str
  Time : Str
  Level : Nat
  deriving DecidableEq, Repr

/-- The map `testBuffers`: test name to buffered lines. -/
abbrev Buffers := List (Str × List Str)

/-- Map lookup `m[k]` with the presence flag. -/
def mapGet : Buffers → Str → Option (List Str)
  | [], _ => none
  | (k1, v1) :: m, k => if k1 = k then some v1 else mapGet m k

/-- Map assignment `m[k] = v`. -/
def mapSet : Buffers → Str → List Str → Buffers
  | [], k, v => [(k, v)]
  | (k1, v1) :: m, k, v => if k1 = k then (k, v) :: m else (k1, v1) :: mapSet m k v

/-- What `processReader` reads and writes outside its own locals. -/
structure Result where
  testBuffers : Buffers
  summaryRecords : List TestSummary
  stdout : List Str
  deriving DecidableEq, Repr

/-- The locals of `processReader`. -/
structure ReaderState where
  currentTest : Str
  lastName : Str
  started : Bool
  inSummary : Bool
  stopParsing : Bool
  deriving DecidableEq, Repr

/-- The locals at the start of `processReader`. -/
def ReaderState.init : ReaderState :=
  { currentTest := [], lastName := [], started := false, inSummary := false,
    stopParsing := false }

/-- The state of `main` before the first reader: no buffer, no record, nothing
printed. -/
def Result.empty : Result := { testBuffers := [], summaryRecords := [], stdout := [] }

/-- The summary branch of the loop body (lines 138-174), entered with
`inSummary` set. -/
def summaryStep (st : ReaderState) (res : Result) (line : Str) : ReaderState × Result :=
  let trimmed := strings.TrimSpace line
  if trimmed = "FAIL".toList then
    ({ st with stopParsing := true }, res)
  else if strings.HasPrefix trimmed "---".toList then
    match strings.Fields trimmed with
    | _ :: statusWithColon :: testName :: more =>
      let status := strings.TrimSuffix statusWithColon ":".toList
      let timeStr : Str :=
        match more with
        | [] => []
        | f3 :: _ => strings.Trim f3 "()".toList
      let indent := line.length - (strings.TrimLeft line " ".toList).length
      let level := indent / 4
      let newSummary : TestSummary :=
        { Status := status, Name := testName, Time := timeStr, Level := level }
      (st, { res with summaryRecords := res.summaryRecords ++ [newSummary] })
    | _ => (st, res)
  else (st, res)

/-- The `switch` of the loop body (lines 176-222), reached outside summary
mode. -/
def streamStep (st : ReaderState) (res : Result) (line : Str) : ReaderState × Result :=
  if strings.HasPrefix (strings.TrimSpace line) "=== PAUSE".toList then (st, res)
  else
    match regexp.FindStringSubmatch contRegex line with
    | some name => ({ st with currentTest := name, lastName := name }, res)
    | none =>
      match regexp.FindStringSubmatch nameRegex line with
      | some newName =>
        if st.lastName ≠ [] ∧ strings.HasPrefix st.lastName (newName ++ "/".toList) then
          ({ st with currentTest := st.lastName }, res)
        else
          ({ st with currentTest := newName, lastName := newName }, res)
      | none =>
        match regexp.FindStringSubmatch runRegex line with
        | some name =>
          ({ st with currentTest := name },
           if (mapGet res.testBuffers name).isSome then res
           else { res with testBuffers := mapSet res.testBuffers name [] })
        | none =>
          if st.currentTest ≠ [] then
            let lines := (mapGet res.testBuffers st.currentTest).getD [] ++ [line]
            (st, { res with testBuffers := mapSet res.testBuffers st.currentTest lines })
          else
            (st, { res with stdout := res.stdout ++ [line] })

/-- One pass through the body of the scanning loop (lines 111-222), for a line
read while `stopParsing` is unset. -/
def loopBody (st : ReaderState) (res : Result) (line : Str) : ReaderState × Result :=
  if !st.started && !regexp.MatchString runRegex line then (st, res)
  else
    let st1 := if !st.started then { st with started := true } else st
    let st2 :=
      if !st1.inSummary && strings.HasPrefix (strings.TrimSpace line) "---".toList then
        { st1 with inSummary := true }
      else st1
    if st2.inSummary then summaryStep st2 res line else streamStep st2 res line

/-- The scanning loop `for scanner.Scan() { if stopParsing { break } ... }` over
the lines of one reader. -/
def processLines : ReaderState → Result → List Str → ReaderState × Result
  | st, res, [] => (st, res)
  | st, res, line :: rest =>
    if st.stopParsing then (st, res)
    else processLines (loopBody st res line).1 (loopBody st res line).2 rest

/-- The closure `processReader`, applied to a reader that delivers `lines`. -/
def processReader (res : Result) (lines : List Str) : Result :=
  (processLines ReaderState.init res lines).2

/-- The phases of the parse of one reader. -/
inductive Phase where
  | PreStart
  | Streaming
  | Summary
  | Stopped
  deriving DecidableEq, Repr

/-- The position of a phase in the order PreStart, Streaming, Summary, Stopped. -/
def Phase.rank : Phase → Nat
  | .PreStart => 0
  | .Streaming => 1
  | .Summary => 2
  | .Stopped => 3

/-- The phase that the flags `stopParsing`, `inSummary` and `started` encode. -/
def ReaderState.phase (st : ReaderState) : Phase :=
  if st.stopParsing then .Stopped
  else if st.inSummary then .Summary
  else if st.started then .Streaming
  else .PreStart

/-- The test of line 131 and line 147: the trimmed text begins with `---`. -/
def isDash (line : Str) : Bool := strings.HasPrefix (strings.TrimSpace line) "---".toList

/-- The test of line 177: the trimmed text begins with `=== PAUSE`. -/
def isPause (line : Str) : Bool :=
  strings.HasPrefix (strings.TrimSpace line) "=== PAUSE".toList

/-- A line that one of the first four cases of the `switch` takes. -/
def isMarker (line : Str) : Bool :=
  isPause line || regexp.MatchString contRegex line || regexp.MatchString nameRegex line ||
    regexp.MatchString runRegex line

/-- The output of `fmt.Printf("%s--- %s: %s (%s)\n", indent, Status, Name, Time)`. -/
def summaryLine (indent : Str) (summary : TestSummary) : Str :=
  indent ++ "--- ".toList ++ summary.Status ++ ": ".toList ++ summary.Name ++ " (".toList ++
    summary.Time ++ ")".toList

/-- The output of the loop that prints a test's buffer under its summary line
(lines 272-276 and 288-292): nothing when the name has no buffer. -/
def bufferLines (indent : Str) (testBuffers : Buffers) (name : Str) : List Str :=
  match mapGet testBuffers name with
  | some lines => lines.map (fun line => indent ++ "    ".toList ++ line)
  | none => []

/-- The loop of the `-s` mode (lines 266-277). -/
def serialiseLoop (reTest : Str → Bool) (testBuffers : Buffers) : List TestSummary → List Str
  | [] => []
  | summary :: rest =>
    if !reTest summary.Name then serialiseLoop reTest testBuffers rest
    else
      let indent := strings.Repeat "    ".toList summary.Level
      summaryLine indent summary ::
        (bufferLines indent testBuffers summary.Name ++ serialiseLoop reTest testBuffers rest)

/-- The loop of the `-l` / `-L` modes (lines 283-295). -/
def failuresLoop (reTest : Str → Bool) (listFailuresWithOutput : Bool) (testBuffers : Buffers) :
    List TestSummary → List Str
  | [] => []
  | summary :: rest =>
    if summary.Status = "FAIL".toList ∧ reTest summary.Name = true then
      let indent := strings.Repeat "    ".toList summary.Level
      summaryLine indent summary ::
        ((if listFailuresWithOutput then bufferLines indent testBuffers summary.Name else []) ++
          failuresLoop reTest listFailuresWithOutput testBuffers rest)
    else failuresLoop reTest listFailuresWithOutput testBuffers rest

/-- The loop of the default mode (lines 343-348). -/
def defaultLoop (reTest : Str → Bool) : List TestSummary → List Str
  | [] => []
  | summary :: rest =>
    if summary.Status = "FAIL".toList ∧ reTest summary.Name = true then
      summaryLine (strings.Repeat "    ".toList summary.Level) summary :: defaultLoop reTest rest
    else defaultLoop reTest rest

/-- The command-line flags that select the mode. -/
structure Flags where
  listFailures : Bool
  listFailuresWithOutput : Bool
  forceFlag : Bool
  serialiseFlag : Bool
  writeFiles : Bool
  deriving DecidableEq, Repr

/-- No flag given: the default mode. -/
def Flags.default : Flags :=
  { listFailures := false, listFailuresWithOutput := false, forceFlag := false,
    serialiseFlag := false, writeFiles := false }

/-- What `main` prints to standard output after the readers are processed
(lines 265-348), for the compiled filter `reTest`.  The `-w` mode prints nothing
there. -/
def render (flags : Flags) (reTest : Str → Bool) (res : Result) : List Str :=
  if flags.serialiseFlag then serialiseLoop reTest res.testBuffers res.summaryRecords
  else if flags.listFailures || flags.listFailuresWithOutput then
    "Failed Tests:".toList ::
      failuresLoop reTest flags.listFailuresWithOutput res.testBuffers res.summaryRecords
  else if flags.writeFiles then []
  else defaultLoop reTest res.summaryRecords

/-- The standard output of `main` on the readers `inputs`, processed in order
into one result. -/
def mainStdout (flags : Flags) (reTest : Str → Bool) (inputs : List (List Str)) : List Str :=
  let res := inputs.foldl processReader Result.empty
  res.stdout ++ render flags reTest res

/-- The flags of a state that the loop can reach: summary mode only after the
start, and `stopParsing` only in summary mode. -/
def ReaderState.wf (st : ReaderState) : Bool :=
  (!st.inSummary || st.started) && (!st.stopParsing || st.inSummary)

/-- The plain lines of a stretch of the streaming phase, each paired with the
active test at the moment the line is read, for a reader in state `st`. -/
def attribution (st : ReaderState) : List Str → List (Str × Str)
  | [] => []
  | line :: rest =>
    if isMarker line then attribution (streamStep st Result.empty line).1 rest
    else (st.currentTest, line) :: attribution st rest

/-- The lines that an attribution gives to the test `n`, in order. -/
def linesOf (att : List (Str × Str)) (n : Str) : List Str :=
  (att.filter (fun p => p.1 == n)).map Prod.snd

/-- The buffer of the test `n`, empty when the map has none: `testBuffers[n]`. -/
def bufferOf (res : Result) (n : Str) : List Str := (mapGet res.testBuffers n).getD []

/-- The record that the summary branch builds from a line (lines 147-171), if it
builds one: the trimmed text begins with `---` and has at least three tokens. -/
def summaryOf (line : Str) : Option TestSummary :=
  let trimmed := strings.TrimSpace line
  if strings.HasPrefix trimmed "---".toList then
    match strings.Fields trimmed with
    | _ :: statusWithColon :: testName :: more =>
      let status := strings.TrimSuffix statusWithColon ":".toList
      let timeStr : Str :=
        match more with
        | [] => []
        | f3 :: _ => strings.Trim f3 "()".toList
      let indent := line.length - (strings.TrimLeft line " ".toList).length
      let level := indent / 4
      some { Status := status, Name := testName, Time := timeStr, Level := level }
    | _ => none
  else none

/-- The test of line 140: the trimmed text is the terminator `FAIL`. -/
def isTerminator (line : Str) : Bool := strings.TrimSpace line == "FAIL".toList

/-- An effect of the `-w` mode on the file system. -/
inductive FsEffect where
  | MkdirAll (dirPath : Str)
  | Create (filePath : Str)
  | WriteString (filePath : Str) (text : Str)
  deriving DecidableEq, Repr

/-- How the `-w` mode ends: the exit status of the process and the effects it
had on the file system, in order. -/
structure WriteResult where
  exitCode : Nat
  effects : List FsEffect
  deriving DecidableEq, Repr

/-- The loop of lines 314-322 over `dirsToCreate`: `os.MkdirAll` on each path,
and `os.Exit(1)` at the first that fails.  `mkdirOk` tells whether the system
call succeeds.  The flag returned is false when the loop exited. -/
def mkdirLoop (mkdirOk : Str → Bool) : List Str → Bool × List FsEffect
  | [] => (true, [])
  | dirPath :: rest =>
    if mkdirOk dirPath then
      ((mkdirLoop mkdirOk rest).1, FsEffect.MkdirAll dirPath :: (mkdirLoop mkdirOk rest).2)
    else (false, [])

/-- The loop of lines 324-338 over the map: `os.Create` of the file
`output.log` of each test, then one `WriteString` per buffered line; a test
whose file cannot be created is skipped.  `join` is `filepath.Join` and
`createOk` tells whether `os.Create` succeeds. -/
def writeLoop (join : List Str → Str) (createOk : Str → Bool) (outputDir : Str) :
    Buffers → List FsEffect
  | [] => []
  | (testName, lines) :: rest =>
    let filePath := join [outputDir, testName, "output.log".toList]
    if createOk filePath then
      FsEffect.Create filePath ::
        (lines.map (fun line => FsEffect.WriteString filePath (line ++ "\n".toList)) ++
          writeLoop join createOk outputDir rest)
    else writeLoop join createOk outputDir rest

/-- The `-w` mode (lines 299-340).  The file system is the list `existing` of
the paths for which `os.Stat` succeeds.  A `range` over the map `testBuffers`
visits its entries in an unspecified order: `iter1` and `iter2` are the entries
in the order of the first and of the second `range`. -/
def writeFilesMode (join : List Str → Str) (existing : List Str) (mkdirOk createOk : Str → Bool)
    (forceFlag : Bool) (outputDir : Str) (iter1 iter2 : Buffers) : WriteResult :=
  let dirsToCreate := iter1.map (fun p => join [outputDir, p.1])
  if !forceFlag && dirsToCreate.any (fun dirPath => existing.contains dirPath) then
    { exitCode := 1, effects := [] }
  else if (mkdirLoop mkdirOk dirsToCreate).1 then
    { exitCode := 0,
      effects := (mkdirLoop mkdirOk dirsToCreate).2 ++ writeLoop join createOk outputDir iter2 }
  else { exitCode := 1, effects := (mkdirLoop mkdirOk dirsToCreate).2 }

/-! ## The scanning loop: general facts -/

theorem processLines_stopped (st : ReaderState) (res : Result) (ls : List Str)
    (h : st.stopParsing = true) : processLines st res ls = (st, res) := by
  cases ls with
  | nil => rfl
  | cons l ls => simp [processLines, h]

theorem processLines_cons_running (st : ReaderState) (res : Result) (l : Str) (ls : List Str)
    (h : st.stopParsing = false) :
    processLines st res (l :: ls) = processLines (loopBody st res l).1 (loopBody st res l).2 ls := by
  simp [processLines, h]

theorem processLines_append (st : ReaderState) (res : Result) (xs ys : List Str) :
    processLines st res (xs ++ ys) =
      processLines (processLines st res xs).1 (processLines st res xs).2 ys := by
  induction xs generalizing st res with
  | nil => rfl
  | cons x xs ih =>
    by_cases h : st.stopParsing = true
    · rw [List.cons_append, processLines_stopped st res _ h, processLines_stopped st res _ h,
        processLines_stopped st res _ h]
    · have h2 : st.stopParsing = false := by simpa using h
      rw [List.cons_append, processLines_cons_running _ _ _ _ h2,
        processLines_cons_running _ _ _ _ h2, ih]

/-- What the summary branch can do: set `stopParsing`, or append one record, or
nothing. -/
theorem summaryStep_cases (st : ReaderState) (res : Result) (line : Str) :
    summaryStep st res line = ({ st with stopParsing := true }, res) ∨
      summaryStep st res line = (st, res) ∨
      ∃ s : TestSummary, summaryStep st res line =
        (st, { res with summaryRecords := res.summaryRecords ++ [s] }) := by
  unfold summaryStep
  simp only []
  split
  · exact Or.inl rfl
  · split
    · split
      · exact Or.inr (Or.inr ⟨_, rfl⟩)
      · exact Or.inr (Or.inl rfl)
    · exact Or.inr (Or.inl rfl)

/-- The `switch` touches none of the three flags and no summary record. -/
theorem streamStep_flags (st : ReaderState) (res : Result) (line : Str) :
    (streamStep st res line).1.started = st.started ∧
      (streamStep st res line).1.inSummary = st.inSummary ∧
      (streamStep st res line).1.stopParsing = st.stopParsing ∧
      (streamStep st res line).2.summaryRecords = res.summaryRecords := by
  unfold streamStep
  split
  · simp
  · split
    · simp
    · split
      · split <;> simp
      · split
        · split <;> simp
        · split <;> simp

/-- A line read before the first `=== RUN` marker that is not one itself is
skipped: nothing changes. -/
theorem loopBody_skip (st : ReaderState) (res : Result) (line : Str)
    (hs : st.started = false) (hr : regexp.MatchString runRegex line = false) :
    loopBody st res line = (st, res) := by
  simp [loopBody, hs, hr]

/-- The loop body in summary mode is the summary branch. -/
theorem loopBody_summary (st : ReaderState) (res : Result) (line : Str)
    (hs : st.started = true) (hi : st.inSummary = true) :
    loopBody st res line = summaryStep st res line := by
  simp [loopBody, hs, hi]

/-- The loop body on a started reader that meets a `---` line is the summary
branch with `inSummary` set. -/
theorem loopBody_dash (st : ReaderState) (res : Result) (line : Str)
    (hs : st.started = true) (hd : isDash line = true) :
    loopBody st res line = summaryStep { st with inSummary := true } res line := by
  unfold isDash at hd
  by_cases hi : st.inSummary = true
  · have : ({ st with inSummary := true } : ReaderState) = st := by
      cases st; simp_all
    rw [this, loopBody_summary st res line hs hi]
  · have hi2 : st.inSummary = false := by simpa using hi
    simp only [String.toList] at hd
    simp [loopBody, hs, hi2, hd]

/-- The loop body in the streaming phase, on a line that is not a `---` line,
is the `switch`. -/
theorem loopBody_stream (st : ReaderState) (res : Result) (line : Str)
    (hs : st.started = true) (hi : st.inSummary = false) (hd : isDash line = false) :
    loopBody st res line = streamStep st res line := by
  unfold isDash at hd
  simp only [String.toList] at hd
  simp [loopBody, hs, hi, hd]

/-- The loop body on the first `=== RUN` marker: the reader starts. -/
theorem loopBody_start (st : ReaderState) (res : Result) (line : Str)
    (hs : st.started = false) (hr : regexp.MatchString runRegex line = true) :
    loopBody st res line = loopBody { st with started := true } res line := by
  simp [loopBody, hs, hr]

/-- The three ways through the loop body: the line is skipped, or it goes to the
summary branch, or it goes to the `switch`. -/
theorem loopBody_cases (st : ReaderState) (res : Result) (line : Str) :
    loopBody st res line = (st, res) ∨
      loopBody st res line =
        summaryStep { st with started := true, inSummary := true } res line ∨
      (st.inSummary = false ∧ isDash line = false ∧
        loopBody st res line = streamStep { st with started := true } res line) := by
  unfold isDash
  simp only [String.toList]
  rcases st with ⟨ct, ln, started, inSummary, stop⟩
  by_cases hd : strings.HasPrefix (strings.TrimSpace line) "---".data = true
  · cases started <;> cases inSummary <;>
      cases hr : regexp.MatchString runRegex line <;> simp [loopBody, hr, hd]
  · have hd2 : strings.HasPrefix (strings.TrimSpace line) "---".data = false := by simpa using hd
    cases started <;> cases inSummary <;>
      cases hr : regexp.MatchString runRegex line <;> simp [loopBody, hr, hd2]

/-- No flag is ever unset by the loop body, and reachable flags stay reachable. -/
theorem loopBody_flags (st : ReaderState) (res : Result) (line : Str) :
    (st.started = true → (loopBody st res line).1.started = true) ∧
      (st.inSummary = true → (loopBody st res line).1.inSummary = true) ∧
      (st.stopParsing = true → (loopBody st res line).1.stopParsing = true) ∧
      (st.wf = true → (loopBody st res line).1.wf = true) := by
  rcases loopBody_cases st res line with h | h | ⟨hi, -, h⟩
  · rw [h]; simp
  · rw [h]
    rcases summaryStep_cases { st with started := true, inSummary := true } res line with
      h2 | h2 | ⟨s, h2⟩ <;> rw [h2] <;> simp [ReaderState.wf]
  · rw [h]
    obtain ⟨h1, h2, h3, -⟩ := streamStep_flags { st with started := true } res line
    generalize streamStep { st with started := true } res line = r at h1 h2 h3 ⊢
    simp only at h1 h2 h3
    simp [ReaderState.wf, h1, h2, h3, hi]

theorem processLines_flags (st : ReaderState) (res : Result) (ls : List Str) :
    (st.started = true → (processLines st res ls).1.started = true) ∧
      (st.inSummary = true → (processLines st res ls).1.inSummary = true) ∧
      (st.stopParsing = true → (processLines st res ls).1.stopParsing = true) ∧
      (st.wf = true → (processLines st res ls).1.wf = true) := by
  induction ls generalizing st res with
  | nil => simp [processLines]
  | cons l ls ih =>
    by_cases h : st.stopParsing = true
    · rw [processLines_stopped st res _ h]; simp
    · have h2 : st.stopParsing = false := by simpa using h
      rw [processLines_cons_running _ _ _ _ h2]
      obtain ⟨a1, a2, a3, a4⟩ := loopBody_flags st res l
      obtain ⟨b1, b2, b3, b4⟩ := ih (loopBody st res l).1 (loopBody st res l).2
      exact ⟨fun x => b1 (a1 x), fun x => b2 (a2 x), fun x => b3 (a3 x), fun x => b4 (a4 x)⟩

theorem wf_iff (st : ReaderState) :
    st.wf = true ↔
      (st.inSummary = true → st.started = true) ∧ (st.stopParsing = true → st.inSummary = true) := by
  rcases st with ⟨ct, ln, started, inSummary, stop⟩
  cases started <;> cases inSummary <;> cases stop <;> simp [ReaderState.wf]

/-- After a `=== RUN` marker a reachable reader has started. -/
theorem started_after_run (st : ReaderState) (res : Result) (run : Str) (ls : List Str)
    (hw : st.wf = true) (hr : regexp.MatchString runRegex run = true) :
    (processLines st res (run :: ls)).1.started = true := by
  by_cases h : st.stopParsing = true
  · rw [processLines_stopped st res _ h]
    rw [wf_iff] at hw
    exact hw.1 (hw.2 h)
  · have h2 : st.stopParsing = false := by simpa using h
    rw [processLines_cons_running _ _ _ _ h2]
    apply (processLines_flags _ _ _).1
    by_cases hs : st.started = true
    · exact (loopBody_flags st res run).1 hs
    · have hs2 : st.started = false := by simpa using hs
      rw [loopBody_start st res run hs2 hr]
      exact (loopBody_flags _ res run).1 rfl

/-- After a `---` line a started reachable reader is in summary mode. -/
theorem summary_after_dash (st : ReaderState) (res : Result) (dash : Str) (ls : List Str)
    (hw : st.wf = true) (hs : st.started = true) (hd : isDash dash = true) :
    (processLines st res (dash :: ls)).1.inSummary = true := by
  by_cases h : st.stopParsing = true
  · rw [processLines_stopped st res _ h]
    rw [wf_iff] at hw
    exact hw.2 h
  · have h2 : st.stopParsing = false := by simpa using h
    rw [processLines_cons_running _ _ _ _ h2]
    apply (processLines_flags _ _ _).2.1
    rw [loopBody_dash st res dash hs hd]
    rcases summaryStep_cases { st with inSummary := true } res dash with
      h3 | h3 | ⟨s, h3⟩ <;> rw [h3]

/-- A reader that has met a `=== RUN` marker and later a `---` line is in summary
mode (and started), whatever came before, between and after them. -/
theorem summary_reached (res : Result) (a b c : List Str) (run dash : Str)
    (hr : regexp.MatchString runRegex run = true) (hd : isDash dash = true) :
    (processLines ReaderState.init res (a ++ run :: (b ++ dash :: c))).1.inSummary = true ∧
      (processLines ReaderState.init res (a ++ run :: (b ++ dash :: c))).1.started = true := by
  have key : (processLines ReaderState.init res (a ++ run :: (b ++ dash :: c))).1.inSummary
      = true := by
    rw [processLines_append]
    have hw1 := (processLines_flags ReaderState.init res a).2.2.2 rfl
    generalize (processLines ReaderState.init res a).1 = s1 at hw1 ⊢
    generalize (processLines ReaderState.init res a).2 = r1
    rw [show run :: (b ++ dash :: c) = (run :: b) ++ dash :: c from rfl, processLines_append]
    have hw2 := (processLines_flags s1 r1 (run :: b)).2.2.2 hw1
    have hs2 := started_after_run s1 r1 run b hw1 hr
    generalize (processLines s1 r1 (run :: b)).1 = s2 at hw2 hs2 ⊢
    generalize (processLines s1 r1 (run :: b)).2 = r2
    exact summary_after_dash s2 r2 dash c hw2 hs2 hd
  refine ⟨key, ?_⟩
  have hw := (processLines_flags ReaderState.init res (a ++ run :: (b ++ dash :: c))).2.2.2 rfl
  rw [wf_iff] at hw
  exact hw.1 key

/-- In summary mode one line changes no buffer, prints nothing and leaves the
active test and the base name alone: it can only append a record or stop. -/
theorem loopBody_in_summary (st : ReaderState) (res : Result) (line : Str)
    (hi : st.inSummary = true) :
    (loopBody st res line).2.testBuffers = res.testBuffers ∧
      (loopBody st res line).2.stdout = res.stdout ∧
      (loopBody st res line).1.currentTest = st.currentTest ∧
      (loopBody st res line).1.lastName = st.lastName ∧
      (loopBody st res line).1.inSummary = true ∧
      res.summaryRecords <+: (loopBody st res line).2.summaryRecords := by
  rcases loopBody_cases st res line with h | h | ⟨hi2, -, -⟩
  · rw [h]; simp [hi]
  · rw [h]
    rcases summaryStep_cases { st with started := true, inSummary := true } res line with
      h2 | h2 | ⟨s, h2⟩ <;> rw [h2] <;> simp
  · rw [hi] at hi2; cases hi2

theorem processLines_in_summary (st : ReaderState) (res : Result) (ls : List Str)
    (hi : st.inSummary = true) :
    (processLines st res ls).2.testBuffers = res.testBuffers ∧
      (processLines st res ls).2.stdout = res.stdout ∧
      (processLines st res ls).1.currentTest = st.currentTest ∧
      (processLines st res ls).1.lastName = st.lastName ∧
      (processLines st res ls).1.inSummary = true ∧
      res.summaryRecords <+: (processLines st res ls).2.summaryRecords := by
  induction ls generalizing st res with
  | nil => simp [processLines, hi]
  | cons l ls ih =>
    by_cases h : st.stopParsing = true
    · rw [processLines_stopped st res _ h]; simp [hi]
    · have h2 : st.stopParsing = false := by simpa using h
      rw [processLines_cons_running _ _ _ _ h2]
      obtain ⟨a1, a2, a3, a4, a5, a6⟩ := loopBody_in_summary st res l hi
      obtain ⟨b1, b2, b3, b4, b5, b6⟩ := ih (loopBody st res l).1 (loopBody st res l).2 a5
      exact ⟨b1.trans a1, b2.trans a2, b3.trans a3, b4.trans a4, b5, a6.trans b6⟩

theorem phase_rank_loopBody (st : ReaderState) (res : Result) (line : Str) :
    st.phase.rank ≤ (loopBody st res line).1.phase.rank := by
  obtain ⟨h1, h2, h3, -⟩ := loopBody_flags st res line
  generalize (loopBody st res line).1 = st2 at h1 h2 h3
  rcases st with ⟨ct, ln, started, inSummary, stop⟩
  rcases st2 with ⟨ct2, ln2, started2, inSummary2, stop2⟩
  cases started <;> cases inSummary <;> cases stop <;> cases started2 <;> cases inSummary2 <;>
    cases stop2 <;> simp_all [ReaderState.phase, Phase.rank]

/-! ## Strings and the marker expressions -/

/-- Trailing characters are dropped only after a kept one: a prefix that ends in
a kept character survives. -/
theorem rdropWhile_keeps (p : Char → Bool) (lit : Str) (z : Char) (hz : p z = false)
    (t : Str) : ∃ t2, List.rdropWhile p (lit ++ z :: t) = lit ++ z :: t2 := by
  induction t using List.reverseRecOn with
  | nil =>
    refine ⟨[], ?_⟩
    have : lit ++ [z] = lit ++ [z] := rfl
    rw [List.rdropWhile_concat]
    simp [hz]
  | append_singleton t x ih =>
    obtain ⟨t2, h2⟩ := ih
    have e : lit ++ z :: (t ++ [x]) = (lit ++ z :: t) ++ [x] := by simp
    rw [e, List.rdropWhile_concat]
    by_cases hx : p x = true
    · rw [if_pos hx]; exact ⟨t2, h2⟩
    · rw [if_neg hx]; exact ⟨t ++ [x], by simp⟩

/-- The trimmed text of a line that begins with `=== X`, for a literal that
begins and ends with a character that is no white space, begins with it too. -/
theorem TrimSpace_keeps (a z : Char) (m t : Str) (ha : unicode.IsSpace a = false)
    (hz : unicode.IsSpace z = false) :
    ∃ t2, strings.TrimSpace (a :: (m ++ z :: t)) = a :: (m ++ z :: t2) := by
  unfold strings.TrimSpace
  rw [List.dropWhile_cons_of_neg (by simp [ha])]
  exact rdropWhile_keeps unicode.IsSpace (a :: m) z hz t

theorem FindStringSubmatch_some (lit line n : Str)
    (h : regexp.FindStringSubmatch lit line = some n) : ∃ t, line = lit ++ t := by
  unfold regexp.FindStringSubmatch at h
  by_cases hp : lit.isPrefixOf line = true
  · exact List.isPrefixOf_iff_prefix.mp hp |>.imp fun t ht => ht.symm
  · rw [if_neg hp] at h; cases h

theorem dropWhile_run (p : Char → Bool) (ws n : Str) (hws : ∀ c ∈ ws, p c = true)
    (hn : ∀ c, n.head? = some c → p c = false) : (ws ++ n).dropWhile p = n := by
  induction ws with
  | nil =>
    cases n with
    | nil => rfl
    | cons c n => simp [List.dropWhile_cons, hn c rfl]
  | cons w ws ih =>
    simp only [List.cons_append, List.dropWhile_cons, hws w (List.mem_cons_self _ _), if_true]
    exact ih (fun c hc => hws c (List.mem_cons_of_mem _ hc))

/-- The expression `^LIT\s+(.*)` on the line `LIT`, a non-empty run of `\s`
characters, and a name that begins with no `\s` character and holds no newline:
it matches, and the submatch is the name. -/
theorem FindStringSubmatch_marker (lit ws n : Str) (hne : ws ≠ [])
    (hws : ∀ c ∈ ws, regexp.reSpace c = true)
    (hn : ∀ c, n.head? = some c → regexp.reSpace c = false) (hnl : '\n' ∉ n) :
    regexp.FindStringSubmatch lit (lit ++ ws ++ n) = some n := by
  unfold regexp.FindStringSubmatch
  have hp : lit.isPrefixOf (lit ++ ws ++ n) = true :=
    List.isPrefixOf_iff_prefix.mpr ⟨ws ++ n, by simp⟩
  rw [if_pos hp, List.append_assoc, List.drop_left]
  cases ws with
  | nil => exact absurd rfl hne
  | cons w ws =>
    simp only [List.cons_append, hws w (List.mem_cons_self _ _), if_true]
    have e := dropWhile_run regexp.reSpace (w :: ws) n hws hn
    simp only [List.cons_append] at e
    rw [e]
    congr 1
    rw [List.takeWhile_eq_self_iff]
    intro x hx
    have : x ≠ '\n' := fun hx2 => hnl (hx2 ▸ hx)
    simpa using this

/-- A line that one of the three marker expressions matches is neither a `---`
line nor a `=== PAUSE` line. -/
theorem marker_not_dash_pause (lit line n : Str)
    (hl : lit = runRegex ∨ lit = nameRegex ∨ lit = contRegex)
    (h : regexp.FindStringSubmatch lit line = some n) :
    isDash line = false ∧ isPause line = false := by
  obtain ⟨t, rfl⟩ := FindStringSubmatch_some lit line n h
  have hsp : unicode.IsSpace '=' = false := by decide
  rcases hl with rfl | rfl | rfl
  · obtain ⟨t2, h2⟩ := TrimSpace_keeps '=' 'N' "== RU".toList t hsp (by decide)
    have e : runRegex ++ t = '=' :: ("== RU".toList ++ 'N' :: t) := rfl
    rw [isDash, isPause, e, h2]
    exact ⟨rfl, rfl⟩
  · obtain ⟨t2, h2⟩ := TrimSpace_keeps '=' 'E' "== NAM".toList t hsp (by decide)
    have e : nameRegex ++ t = '=' :: ("== NAM".toList ++ 'E' :: t) := rfl
    rw [isDash, isPause, e, h2]
    exact ⟨rfl, rfl⟩
  · obtain ⟨t2, h2⟩ := TrimSpace_keeps '=' 'T' "== CON".toList t hsp (by decide)
    have e : contRegex ++ t = '=' :: ("== CON".toList ++ 'T' :: t) := rfl
    rw [isDash, isPause, e, h2]
    exact ⟨rfl, rfl⟩

/-- At most one of the three marker expressions matches a line. -/
theorem marker_exclusive (line n : Str) :
    (regexp.FindStringSubmatch nameRegex line = some n →
        regexp.FindStringSubmatch contRegex line = none) ∧
      (regexp.FindStringSubmatch runRegex line = some n →
        regexp.FindStringSubmatch contRegex line = none ∧
          regexp.FindStringSubmatch nameRegex line = none) := by
  constructor
  · intro h
    obtain ⟨t, rfl⟩ := FindStringSubmatch_some _ _ _ h
    rfl
  · intro h
    obtain ⟨t, rfl⟩ := FindStringSubmatch_some _ _ _ h
    exact ⟨rfl, rfl⟩

/-! ## The map of buffers -/

theorem mapGet_mapSet (m : Buffers) (k : Str) (v : List Str) (k2 : Str) :
    mapGet (mapSet m k v) k2 = if k = k2 then some v else mapGet m k2 := by
  induction m with
  | nil => simp [mapSet, mapGet]
  | cons p m ih =>
    rcases p with ⟨k1, v1⟩
    by_cases h : k1 = k
    · subst h
      by_cases h2 : k1 = k2 <;> simp [mapSet, mapGet, h2]
    · by_cases h2 : k1 = k2
      · subst h2
        simp [mapSet, mapGet, h, Ne.symm h]
      · simp [mapSet, mapGet, h, h2, ih]

/-! ## The streaming phase -/

theorem MatchString_false (lit line : Str) :
    regexp.MatchString lit line = false ↔ regexp.FindStringSubmatch lit line = none := by
  unfold regexp.MatchString
  cases regexp.FindStringSubmatch lit line <;> simp

/-- The `switch` on a marker line of the `=== CONT` kind. -/
theorem loopBody_cont (st : ReaderState) (res : Result) (line n : Str)
    (hs : st.started = true) (hi : st.inSummary = false)
    (hc : regexp.FindStringSubmatch contRegex line = some n) :
    loopBody st res line = ({ st with currentTest := n, lastName := n }, res) := by
  obtain ⟨hd, hp⟩ := marker_not_dash_pause contRegex line n (Or.inr (Or.inr rfl)) hc
  rw [loopBody_stream st res line hs hi hd]
  unfold isPause at hp
  simp only [String.toList] at hp
  simp [streamStep, hp, hc]

/-- The `switch` on a marker line of the `=== NAME` kind. -/
theorem loopBody_name (st : ReaderState) (res : Result) (line n : Str)
    (hs : st.started = true) (hi : st.inSummary = false)
    (hc : regexp.FindStringSubmatch nameRegex line = some n) :
    loopBody st res line =
      if st.lastName ≠ [] ∧ strings.HasPrefix st.lastName (n ++ "/".toList) = true then
        ({ st with currentTest := st.lastName }, res)
      else ({ st with currentTest := n, lastName := n }, res) := by
  obtain ⟨hd, hp⟩ := marker_not_dash_pause nameRegex line n (Or.inr (Or.inl rfl)) hc
  rw [loopBody_stream st res line hs hi hd]
  unfold isPause at hp
  simp only [String.toList] at hp
  simp [streamStep, hp, hc, (marker_exclusive line n).1 hc]

/-- The `switch` on a line that is no marker: the default case. -/
theorem streamStep_plain (st : ReaderState) (res : Result) (line : Str)
    (hm : isMarker line = false) :
    streamStep st res line =
      if st.currentTest ≠ [] then
        let lines := (mapGet res.testBuffers st.currentTest).getD [] ++ [line]
        (st, { res with testBuffers := mapSet res.testBuffers st.currentTest lines })
      else (st, { res with stdout := res.stdout ++ [line] }) := by
  simp only [isMarker, Bool.or_eq_false_iff, MatchString_false] at hm
  obtain ⟨⟨⟨hp, hc⟩, hn⟩, hr⟩ := hm
  unfold isPause at hp
  simp only [String.toList] at hp
  simp [streamStep, hp, hc, hn, hr]

/-- A line of the streaming phase that is no `---` line keeps the reader in the
streaming phase, and keeps the base name unless it is a `=== NAME` or `=== CONT`
marker. -/
theorem loopBody_streaming (st : ReaderState) (res : Result) (line : Str)
    (hs : st.started = true) (hi : st.inSummary = false) (hp : st.stopParsing = false)
    (hd : isDash line = false) :
    (loopBody st res line).1.started = true ∧ (loopBody st res line).1.inSummary = false ∧
      (loopBody st res line).1.stopParsing = false ∧
      (regexp.MatchString nameRegex line = false → regexp.MatchString contRegex line = false →
        (loopBody st res line).1.lastName = st.lastName) := by
  rw [loopBody_stream st res line hs hi hd]
  obtain ⟨h1, h2, h3, -⟩ := streamStep_flags st res line
  refine ⟨h1.trans hs, h2.trans hi, h3.trans hp, ?_⟩
  intro hn hc
  rw [MatchString_false] at hn hc
  unfold streamStep
  simp only [hn, hc]
  split
  · rfl
  · split
    · split <;> rfl
    · split <;> rfl

theorem processLines_streaming (st : ReaderState) (res : Result) (mid : List Str)
    (hs : st.started = true) (hi : st.inSummary = false) (hp : st.stopParsing = false)
    (hmid : ∀ l ∈ mid, isDash l = false ∧ regexp.MatchString nameRegex l = false ∧
      regexp.MatchString contRegex l = false) :
    (processLines st res mid).1.started = true ∧ (processLines st res mid).1.inSummary = false ∧
      (processLines st res mid).1.stopParsing = false ∧
      (processLines st res mid).1.lastName = st.lastName := by
  induction mid generalizing st res with
  | nil => exact ⟨hs, hi, hp, rfl⟩
  | cons l ls ih =>
    rw [processLines_cons_running _ _ _ _ hp]
    obtain ⟨hd, hn, hc⟩ := hmid l (List.mem_cons_self _ _)
    obtain ⟨a1, a2, a3, a4⟩ := loopBody_streaming st res l hs hi hp hd
    obtain ⟨b1, b2, b3, b4⟩ := ih (loopBody st res l).1 (loopBody st res l).2 a1 a2 a3
      (fun x hx => hmid x (List.mem_cons_of_mem _ hx))
    exact ⟨b1, b2, b3, b4.trans (a4 hn hc)⟩

/-! ## Status lines -/

theorem Fields_cons_token (tok rest : Str) (sp : Char) (hsp : unicode.IsSpace sp = true)
    (htok : ∀ c ∈ tok, unicode.IsSpace c = false) (hne : tok ≠ []) :
    strings.Fields (tok ++ sp :: rest) = tok :: strings.Fields rest := by
  unfold strings.Fields
  rw [List.splitOnP_first unicode.IsSpace tok (fun x hx => by simp [htok x hx]) sp hsp]
  cases tok with
  | nil => exact absurd rfl hne
  | cons c tok => simp

theorem Fields_single (tok : Str) (htok : ∀ c ∈ tok, unicode.IsSpace c = false)
    (hne : tok ≠ []) : strings.Fields tok = [tok] := by
  unfold strings.Fields
  rw [List.splitOnP_eq_single unicode.IsSpace tok (fun x hx => by simp [htok x hx])]
  cases tok with
  | nil => exact absurd rfl hne
  | cons c tok => simp

theorem TrimSuffix_colon (s : Str) : strings.TrimSuffix (s ++ ":".toList) ":".toList = s := by
  unfold strings.TrimSuffix
  have h : (":".toList).isSuffixOf (s ++ ":".toList) = true :=
    List.isSuffixOf_iff_suffix.mpr ⟨s, rfl⟩
  rw [if_pos h]
  simp

theorem Trim_parens (d : Str) (hne : d ≠ [])
    (hh : ∀ c, d.head? = some c → c ≠ '(' ∧ c ≠ ')')
    (hl : ∀ c, d.getLast? = some c → c ≠ '(' ∧ c ≠ ')') :
    strings.Trim ('(' :: (d ++ [')'])) "()".toList = d := by
  unfold strings.Trim
  have hcut : ∀ c : Char, ("()".toList).contains c = (c == '(' || c == ')') := by
    intro c
    cases h1 : (c == '(') <;> cases h2 : (c == ')') <;>
      simp [String.toList, List.contains, List.elem, h1, h2]
  cases d with
  | nil => exact absurd rfl hne
  | cons a d =>
    obtain ⟨ha1, ha2⟩ := hh a rfl
    have e1 : List.dropWhile (fun c => ("()".toList).contains c) ('(' :: (a :: d ++ [')'])) =
        (a :: d) ++ [')'] := by
      rw [List.dropWhile_cons]
      simp only [hcut]
      simp [List.dropWhile_cons, ha1, ha2]
    rw [e1, List.rdropWhile_concat]
    simp only [hcut]
    simp only [beq_self_eq_true, Bool.or_true, if_true]
    rw [List.rdropWhile_eq_self_iff]
    intro hnil
    have hlast : (a :: d).getLast? = some ((a :: d).getLast hnil) := List.getLast?_eq_getLast _ hnil
    obtain ⟨hz1, hz2⟩ := hl _ hlast
    simp [hz1, hz2]

/-- The trimmed text of a line made of blanks and a text that begins and ends
with a character that is no white space is that text. -/
theorem TrimSpace_indented (k : Nat) (a z : Char) (m : Str) (ha : unicode.IsSpace a = false)
    (hz : unicode.IsSpace z = false) :
    strings.TrimSpace (List.replicate k ' ' ++ a :: (m ++ [z])) = a :: (m ++ [z]) := by
  unfold strings.TrimSpace
  have e := dropWhile_run unicode.IsSpace (List.replicate k ' ') (a :: (m ++ [z]))
    (fun c hc => by rw [List.eq_of_mem_replicate hc]; decide)
    (fun c hc => by simp at hc; rw [← hc]; exact ha)
  rw [e]
  have e2 : a :: (m ++ [z]) = (a :: m) ++ [z] := rfl
  rw [e2, List.rdropWhile_concat]
  simp [hz]

/-- The width of the indent of a line made of `k` blanks and a text that begins
with another character. -/
theorem indent_width (k : Nat) (a : Char) (t : Str) (ha : a ≠ ' ') :
    (List.replicate k ' ' ++ a :: t).length -
      (strings.TrimLeft (List.replicate k ' ' ++ a :: t) " ".toList).length = k := by
  unfold strings.TrimLeft
  have e := dropWhile_run (fun c => (" ".toList).contains c) (List.replicate k ' ') (a :: t)
    (fun c hc => by rw [List.eq_of_mem_replicate hc]; decide)
    (fun c hc => by
      simp only [List.head?_cons, Option.some.injEq] at hc
      rw [← hc]
      simp [String.toList, ha])
  rw [e]
  simp

/-- A text that begins with `---` is not the terminator. -/
theorem dash_not_FAIL (t : Str) (h : strings.HasPrefix t "---".toList = true) :
    t ≠ "FAIL".toList := by
  intro e
  rw [e] at h
  exact absurd h (by decide)

/-- The summary branch on a `---` line with at least three tokens. -/
theorem summaryStep_record (st : ReaderState) (res : Result) (line f0 f1 f2 : Str)
    (more : List Str) (hd : isDash line = true)
    (hf : strings.Fields (strings.TrimSpace line) = f0 :: f1 :: f2 :: more) :
    summaryStep st res line =
      (st, { res with summaryRecords := res.summaryRecords ++
        [{ Status := strings.TrimSuffix f1 ":".toList, Name := f2,
           Time := (more.head?.map (fun f3 => strings.Trim f3 "()".toList)).getD [],
           Level := (line.length - (strings.TrimLeft line " ".toList).length) / 4 }] }) := by
  unfold isDash at hd
  have hne := dash_not_FAIL _ hd
  unfold summaryStep
  simp only [hne, hd, hf, if_false, if_true]
  cases more <;> rfl

/-- The summary branch on a `---` line with fewer than three tokens. -/
theorem summaryStep_short (st : ReaderState) (res : Result) (line : Str)
    (hd : isDash line = true) (hf : (strings.Fields (strings.TrimSpace line)).length < 3) :
    summaryStep st res line = (st, res) := by
  unfold isDash at hd
  have hne := dash_not_FAIL _ hd
  unfold summaryStep
  simp only [hne, hd, if_false, if_true]
  split
  · rename_i h
    rw [h] at hf
    simp only [List.length_cons] at hf
    omega
  · rfl

/-- A separator at the end of a text closes one more, empty, piece. -/
theorem splitOnP_concat_sep (p : Char → Bool) (s : Str) (c : Char) (hc : p c = true) :
    (s ++ [c]).splitOnP p = s.splitOnP p ++ [[]] := by
  induction s with
  | nil => simp [List.splitOnP_cons, hc]
  | cons x s ih =>
    rw [List.cons_append, List.splitOnP_cons, List.splitOnP_cons, ih]
    by_cases hx : p x = true
    · simp [hx]
    · simp only [hx, if_false]
      have hne := List.splitOnP_ne_nil p s
      cases h : s.splitOnP p with
      | nil => exact absurd h hne
      | cons a as => simp [List.modifyHead]

theorem Fields_concat_space (s : Str) (c : Char) (hc : unicode.IsSpace c = true) :
    strings.Fields (s ++ [c]) = strings.Fields s := by
  unfold strings.Fields
  rw [splitOnP_concat_sep unicode.IsSpace s c hc]
  simp

theorem Fields_cons_space (s : Str) (c : Char) (hc : unicode.IsSpace c = true) :
    strings.Fields (c :: s) = strings.Fields s := by
  unfold strings.Fields
  rw [List.splitOnP_cons]
  simp [hc]

/-- Trimming a text does not change its tokens. -/
theorem Fields_TrimSpace (s : Str) : strings.Fields (strings.TrimSpace s) = strings.Fields s := by
  have left : ∀ t : Str, strings.Fields (t.dropWhile unicode.IsSpace) = strings.Fields t := by
    intro t
    induction t with
    | nil => rfl
    | cons x t ih =>
      by_cases hx : unicode.IsSpace x = true
      · rw [List.dropWhile_cons_of_pos hx, ih, Fields_cons_space t x hx]
      · rw [List.dropWhile_cons_of_neg hx]
  have right : ∀ t : Str, strings.Fields (t.rdropWhile unicode.IsSpace) = strings.Fields t := by
    intro t
    induction t using List.reverseRecOn with
    | nil => rfl
    | append_singleton t x ih =>
      rw [List.rdropWhile_concat]
      by_cases hx : unicode.IsSpace x = true
      · rw [if_pos hx, ih, Fields_concat_space t x hx]
      · rw [if_neg hx]
  unfold strings.TrimSpace
  rw [right, left]

/-! ## The renderers -/

theorem Repeat_blanks (n : Nat) : strings.Repeat "    ".toList n = List.replicate (4 * n) ' ' := by
  induction n with
  | zero => rfl
  | succ n ih =>
    rw [strings.Repeat, ih, show 4 * (n + 1) = 4 * n + 1 + 1 + 1 + 1 from by omega]
    simp [List.replicate_succ, String.toList]

theorem serialiseLoop_append (reTest : Str → Bool) (b : Buffers) (xs ys : List TestSummary) :
    serialiseLoop reTest b (xs ++ ys) = serialiseLoop reTest b xs ++ serialiseLoop reTest b ys := by
  induction xs with
  | nil => rfl
  | cons x xs ih =>
    by_cases h : reTest x.Name = true
    · simp [serialiseLoop, h, ih]
    · simp [serialiseLoop, h, ih]

theorem failuresLoop_append (reTest : Str → Bool) (w : Bool) (b : Buffers)
    (xs ys : List TestSummary) :
    failuresLoop reTest w b (xs ++ ys) = failuresLoop reTest w b xs ++ failuresLoop reTest w b ys := by
  induction xs with
  | nil => rfl
  | cons x xs ih =>
    by_cases h1 : x.Status = ['F', 'A', 'I', 'L'] <;> by_cases h2 : reTest x.Name = true <;>
      simp [failuresLoop, h1, h2, ih]

theorem defaultLoop_append (reTest : Str → Bool) (xs ys : List TestSummary) :
    defaultLoop reTest (xs ++ ys) = defaultLoop reTest xs ++ defaultLoop reTest ys := by
  induction xs with
  | nil => rfl
  | cons x xs ih =>
    by_cases h1 : x.Status = ['F', 'A', 'I', 'L'] <;> by_cases h2 : reTest x.Name = true <;>
      simp [defaultLoop, h1, h2, ih]

theorem serialiseLoop_filter (reTest : Str → Bool) (b : Buffers) (xs : List TestSummary) :
    serialiseLoop reTest b xs =
      serialiseLoop (fun _ => true) b (xs.filter (fun s => reTest s.Name)) := by
  induction xs with
  | nil => rfl
  | cons x xs ih =>
    by_cases h : reTest x.Name = true
    · simp [serialiseLoop, h, ih]
    · simp [serialiseLoop, h, ih]

theorem failuresLoop_filter (reTest : Str → Bool) (w : Bool) (b : Buffers)
    (xs : List TestSummary) :
    failuresLoop reTest w b xs =
      failuresLoop (fun _ => true) w b (xs.filter (fun s => reTest s.Name)) := by
  induction xs with
  | nil => rfl
  | cons x xs ih =>
    by_cases h : reTest x.Name = true
    · simp [failuresLoop, h, ih]
    · simp [failuresLoop, h, ih]

theorem defaultLoop_filter (reTest : Str → Bool) (xs : List TestSummary) :
    defaultLoop reTest xs = defaultLoop (fun _ => true) (xs.filter (fun s => reTest s.Name)) := by
  induction xs with
  | nil => rfl
  | cons x xs ih =>
    by_cases h : reTest x.Name = true
    · simp [defaultLoop, h, ih]
    · simp [defaultLoop, h, ih]

theorem defaultLoop_eq (reTest : Str → Bool) (xs : List TestSummary) :
    defaultLoop reTest xs =
      (xs.filter (fun s => decide (s.Status = "FAIL".toList) && reTest s.Name)).map
        (fun s => List.replicate (4 * s.Level) ' ' ++ "--- FAIL: ".toList ++ s.Name ++
          " (".toList ++ s.Time ++ ")".toList) := by
  induction xs with
  | nil => rfl
  | cons x xs ih =>
    have hr : ∀ n, strings.Repeat [' ', ' ', ' ', ' '] n = List.replicate (4 * n) ' ' :=
      Repeat_blanks
    by_cases h1 : x.Status = ['F', 'A', 'I', 'L'] <;> by_cases h2 : reTest x.Name = true <;>
      simp [defaultLoop, h1, h2, ih, summaryLine, hr, String.toList]

/-! ## Attribution of the plain lines -/

/-- Lines read before the first `=== RUN` marker change nothing. -/
theorem processLines_prestart (res : Result) (pre : List Str)
    (h : ∀ l ∈ pre, regexp.MatchString runRegex l = false) :
    processLines ReaderState.init res pre = (ReaderState.init, res) := by
  induction pre with
  | nil => rfl
  | cons l ls ih =>
    rw [processLines_cons_running _ _ _ _ rfl,
      loopBody_skip _ _ _ rfl (h l (List.mem_cons_self _ _))]
    exact ih (fun x hx => h x (List.mem_cons_of_mem _ hx))

/-- The new state of the `switch` does not depend on the result. -/
theorem streamStep_state (st : ReaderState) (res res2 : Result) (line : Str) :
    (streamStep st res line).1 = (streamStep st res2 line).1 := by
  unfold streamStep
  split
  · rfl
  · split
    · rfl
    · split
      · split <;> rfl
      · split
        · rfl
        · split <;> rfl

/-- A marker line adds no line to any buffer and prints nothing. -/
theorem streamStep_marker (st : ReaderState) (res : Result) (line : Str)
    (hm : isMarker line = true) :
    (∀ n, bufferOf (streamStep st res line).2 n = bufferOf res n) ∧
      (streamStep st res line).2.stdout = res.stdout := by
  unfold streamStep
  split
  · exact ⟨fun _ => rfl, rfl⟩
  · rename_i hp
    split
    · exact ⟨fun _ => rfl, rfl⟩
    · rename_i hc
      split
      · split <;> exact ⟨fun _ => rfl, rfl⟩
      · rename_i hn
        split
        · rename_i name hr
          by_cases hex : (mapGet res.testBuffers name).isSome = true
          · rw [if_pos hex]
            exact ⟨fun _ => rfl, rfl⟩
          · rw [if_neg hex]
            refine ⟨fun n => ?_, rfl⟩
            unfold bufferOf
            simp only [mapGet_mapSet]
            by_cases e : name = n
            · subst e
              rw [if_pos rfl]
              cases hg : mapGet res.testBuffers name with
              | none => rfl
              | some v => rw [hg] at hex; simp at hex
            · rw [if_neg e]
        · rename_i hr
          exfalso
          simp only [isMarker, isPause, regexp.MatchString, hc, hn, hr, Option.isSome_none,
            Bool.or_false] at hm
          exact hp hm

theorem linesOf_append (a b : List (Str × Str)) (n : Str) :
    linesOf (a ++ b) n = linesOf a n ++ linesOf b n := by
  simp [linesOf]

/-- A plain line goes to the buffer of the active test, or to the output when
the active test is the empty name; the state stays. -/
theorem streamStep_plain_effect (st : ReaderState) (res : Result) (line : Str)
    (hm : isMarker line = false) :
    (streamStep st res line).1 = st ∧
      (∀ n, n ≠ [] → bufferOf (streamStep st res line).2 n =
        bufferOf res n ++ linesOf [(st.currentTest, line)] n) ∧
      bufferOf (streamStep st res line).2 [] = bufferOf res [] ∧
      (streamStep st res line).2.stdout = res.stdout ++ linesOf [(st.currentTest, line)] [] ∧
      (streamStep st res line).2.summaryRecords = res.summaryRecords := by
  rw [streamStep_plain st res line hm]
  by_cases hc : st.currentTest = []
  · rw [if_neg (by simpa using hc)]
    refine ⟨rfl, ?_, rfl, ?_, rfl⟩
    · intro n hn
      have hne : (st.currentTest == n) = false := by
        rw [hc]; simpa using Ne.symm hn
      simp [linesOf, List.filter_cons, hne, bufferOf]
    · simp [linesOf, List.filter_cons, hc]
  · rw [if_pos hc]
    refine ⟨rfl, ?_, ?_, ?_, rfl⟩
    · intro n hn
      by_cases e : st.currentTest = n
      · simp [linesOf, List.filter_cons, e, bufferOf, mapGet_mapSet]
      · have hne : (st.currentTest == n) = false := by simpa using e
        simp [linesOf, List.filter_cons, hne, e, bufferOf, mapGet_mapSet]
    · simp [bufferOf, mapGet_mapSet, hc]
    · have hne : (st.currentTest == ([] : Str)) = false := by simpa using hc
      simp [linesOf, List.filter_cons, hne, hc]

/-- A stretch of the streaming phase without a `---` line: each buffer grows by
the lines attributed to its test, the output by the lines attributed to the
empty name, and the reader stays in the streaming phase. -/
theorem processLines_attribution (st : ReaderState) (res : Result) (mid : List Str)
    (hs : st.started = true) (hi : st.inSummary = false) (hp : st.stopParsing = false)
    (hmid : ∀ l ∈ mid, isDash l = false) :
    (processLines st res mid).1.started = true ∧
      (processLines st res mid).1.inSummary = false ∧
      (processLines st res mid).1.stopParsing = false ∧
      (∀ n, n ≠ [] →
        bufferOf (processLines st res mid).2 n = bufferOf res n ++ linesOf (attribution st mid) n) ∧
      bufferOf (processLines st res mid).2 [] = bufferOf res [] ∧
      (processLines st res mid).2.stdout = res.stdout ++ linesOf (attribution st mid) [] ∧
      (processLines st res mid).2.summaryRecords = res.summaryRecords := by
  induction mid generalizing st res with
  | nil => simp [processLines, attribution, linesOf, hs, hi, hp]
  | cons l ls ih =>
    have hd := hmid l (List.mem_cons_self _ _)
    rw [processLines_cons_running _ _ _ _ hp, loopBody_stream st res l hs hi hd]
    obtain ⟨f1, f2, f3, f4⟩ := streamStep_flags st res l
    obtain ⟨i1, i2, i3, i4, i5, i6, i7⟩ :=
      ih (streamStep st res l).1 (streamStep st res l).2 (f1.trans hs) (f2.trans hi)
        (f3.trans hp) (fun x hx => hmid x (List.mem_cons_of_mem _ hx))
    refine ⟨i1, i2, i3, ?_, ?_, ?_, i7.trans f4⟩
    · intro n hn
      rw [i4 n hn]
      by_cases hm : isMarker l = true
      · rw [(streamStep_marker st res l hm).1 n]
        simp only [attribution, hm, if_true, streamStep_state st Result.empty res l]
      · have hm2 : isMarker l = false := by simpa using hm
        obtain ⟨p1, p2, -, -, -⟩ := streamStep_plain_effect st res l hm2
        rw [p2 n hn, p1, List.append_assoc, ← linesOf_append]
        simp only [attribution, hm2, Bool.false_eq_true, if_false, List.singleton_append]
    · rw [i5]
      by_cases hm : isMarker l = true
      · exact (streamStep_marker st res l hm).1 []
      · have hm2 : isMarker l = false := by simpa using hm
        exact (streamStep_plain_effect st res l hm2).2.2.1
    · rw [i6]
      by_cases hm : isMarker l = true
      · rw [(streamStep_marker st res l hm).2]
        simp only [attribution, hm, if_true, streamStep_state st Result.empty res l]
      · have hm2 : isMarker l = false := by simpa using hm
        obtain ⟨p1, -, -, p4, -⟩ := streamStep_plain_effect st res l hm2
        rw [p4, p1, List.append_assoc, ← linesOf_append]
        simp only [attribution, hm2, Bool.false_eq_true, if_false, List.singleton_append]

/-- An attribution lists the plain lines, each once and in order. -/
theorem attribution_lines (st : ReaderState) (mid : List Str) :
    (attribution st mid).map Prod.snd = mid.filter (fun l => !isMarker l) := by
  induction mid generalizing st with
  | nil => rfl
  | cons l ls ih =>
    by_cases hm : isMarker l = true
    · simp [attribution, hm, ih]
    · have hm2 : isMarker l = false := by simpa using hm
      simp [attribution, hm2, ih]

/-- From a `---` line on, a started reader changes no buffer and prints
nothing. -/
theorem processLines_from_dash (st : ReaderState) (res : Result) (d : Str) (tl : List Str)
    (hs : st.started = true) (hd : isDash d = true) :
    (processLines st res (d :: tl)).2.testBuffers = res.testBuffers ∧
      (processLines st res (d :: tl)).2.stdout = res.stdout := by
  by_cases h : st.stopParsing = true
  · rw [processLines_stopped st res _ h]
    exact ⟨rfl, rfl⟩
  · have h2 : st.stopParsing = false := by simpa using h
    rw [processLines_cons_running _ _ _ _ h2, loopBody_dash st res d hs hd]
    have key : (summaryStep { st with inSummary := true } res d).1.inSummary = true ∧
        (summaryStep { st with inSummary := true } res d).2.testBuffers = res.testBuffers ∧
        (summaryStep { st with inSummary := true } res d).2.stdout = res.stdout := by
      rcases summaryStep_cases { st with inSummary := true } res d with
        h3 | h3 | ⟨s, h3⟩ <;> rw [h3] <;> exact ⟨rfl, rfl, rfl⟩
    obtain ⟨k1, k2, k3⟩ := key
    obtain ⟨q1, q2, -⟩ := processLines_in_summary _
      (summaryStep { st with inSummary := true } res d).2 tl k1
    exact ⟨q1.trans k2, q2.trans k3⟩

/-- The first `=== RUN` marker of a reader: the reader enters the streaming
phase; no buffer holds a line yet and nothing is printed. -/
theorem loopBody_first_run (res : Result) (run : Str)
    (hrun : regexp.MatchString runRegex run = true) :
    (loopBody ReaderState.init res run).1.started = true ∧
      (loopBody ReaderState.init res run).1.inSummary = false ∧
      (loopBody ReaderState.init res run).1.stopParsing = false ∧
      (∀ n, bufferOf (loopBody ReaderState.init res run).2 n = bufferOf res n) ∧
      (loopBody ReaderState.init res run).2.stdout = res.stdout := by
  obtain ⟨name, hname⟩ := Option.isSome_iff_exists.mp hrun
  obtain ⟨hd, -⟩ := marker_not_dash_pause runRegex run name (Or.inl rfl) hname
  have hm : isMarker run = true := by
    simp only [isMarker, hrun, Bool.or_true]
  rw [loopBody_start _ res run rfl hrun, loopBody_stream _ res run rfl rfl hd]
  obtain ⟨f1, f2, f3, -⟩ := streamStep_flags { ReaderState.init with started := true } res run
  obtain ⟨g1, g2⟩ := streamStep_marker { ReaderState.init with started := true } res run hm
  exact ⟨f1, f2, f3, g1, g2⟩

/-! ## Lines with leading white space -/

/-- The trimmed text of a line made of white space, then a text that begins and
ends with a character that is no white space, then anything: it begins with
that text. -/
theorem TrimSpace_after_space (ws : Str) (a z : Char) (m t : Str)
    (hws : ∀ c ∈ ws, unicode.IsSpace c = true) (ha : unicode.IsSpace a = false)
    (hz : unicode.IsSpace z = false) :
    ∃ t2, strings.TrimSpace (ws ++ a :: (m ++ z :: t)) = a :: (m ++ z :: t2) := by
  unfold strings.TrimSpace
  rw [dropWhile_run unicode.IsSpace ws (a :: (m ++ z :: t)) hws
    (fun c hc => by simp at hc; rw [← hc]; exact ha)]
  exact rdropWhile_keeps unicode.IsSpace (a :: m) z hz t

/-- None of the three marker expressions matches a line that begins with a
white space character. -/
theorem no_marker_after_space (w : Char) (rest : Str) (hw : unicode.IsSpace w = true) :
    regexp.FindStringSubmatch runRegex (w :: rest) = none ∧
      regexp.FindStringSubmatch nameRegex (w :: rest) = none ∧
      regexp.FindStringSubmatch contRegex (w :: rest) = none := by
  have hne : ('=' == w) = false := by
    cases h : ('=' == w) with
    | false => rfl
    | true =>
      rw [← beq_iff_eq.mp h] at hw
      exact absurd hw (by decide)
  have key : ∀ lit : Str, regexp.FindStringSubmatch ('=' :: lit) (w :: rest) = none := by
    intro lit
    unfold regexp.FindStringSubmatch
    rw [if_neg]
    simp [List.isPrefixOf, hne]
  exact ⟨key _, key _, key _⟩

/-- A line made of white space, one of the three marker literals and anything
is, for the `switch`, neither a marker nor a `---` line. -/
theorem spaced_marker_plain (ws lit tail : Str) (hne : ws ≠ [])
    (hws : ∀ c ∈ ws, unicode.IsSpace c = true)
    (hl : lit = runRegex ∨ lit = nameRegex ∨ lit = contRegex) :
    isMarker (ws ++ lit ++ tail) = false ∧ isDash (ws ++ lit ++ tail) = false := by
  have hsp : unicode.IsSpace '=' = false := by decide
  have trimmed : isPause (ws ++ lit ++ tail) = false ∧ isDash (ws ++ lit ++ tail) = false := by
    rcases hl with rfl | rfl | rfl
    · obtain ⟨t2, h2⟩ := TrimSpace_after_space ws '=' 'N' "== RU".toList tail hws hsp (by decide)
      have e : ws ++ runRegex ++ tail = ws ++ '=' :: ("== RU".toList ++ 'N' :: tail) := by
        simp [runRegex, String.toList]
      rw [isPause, isDash, e, h2]
      exact ⟨rfl, rfl⟩
    · obtain ⟨t2, h2⟩ := TrimSpace_after_space ws '=' 'E' "== NAM".toList tail hws hsp (by decide)
      have e : ws ++ nameRegex ++ tail = ws ++ '=' :: ("== NAM".toList ++ 'E' :: tail) := by
        simp [nameRegex, String.toList]
      rw [isPause, isDash, e, h2]
      exact ⟨rfl, rfl⟩
    · obtain ⟨t2, h2⟩ := TrimSpace_after_space ws '=' 'T' "== CON".toList tail hws hsp (by decide)
      have e : ws ++ contRegex ++ tail = ws ++ '=' :: ("== CON".toList ++ 'T' :: tail) := by
        simp [contRegex, String.toList]
      rw [isPause, isDash, e, h2]
      exact ⟨rfl, rfl⟩
  refine ⟨?_, trimmed.2⟩
  cases ws with
  | nil => exact absurd rfl hne
  | cons w ws =>
    obtain ⟨n1, n2, n3⟩ := no_marker_after_space w (ws ++ lit ++ tail)
      (hws w (List.mem_cons_self _ _))
    have e : (w :: ws) ++ lit ++ tail = w :: (ws ++ lit ++ tail) := by simp
    rw [e] at trimmed ⊢
    simp only [isMarker, regexp.MatchString, n1, n2, n3, trimmed.1]
    rfl

/-- A line made of white space, `=== PAUSE` and anything is a pause line. -/
theorem spaced_pause (ws tail : Str) (hws : ∀ c ∈ ws, unicode.IsSpace c = true) :
    isPause (ws ++ "=== PAUSE".toList ++ tail) = true ∧
      isDash (ws ++ "=== PAUSE".toList ++ tail) = false := by
  obtain ⟨t2, h2⟩ := TrimSpace_after_space ws '=' 'E' "== PAUS".toList tail hws (by decide)
    (by decide)
  have e : ws ++ "=== PAUSE".toList ++ tail = ws ++ '=' :: ("== PAUS".toList ++ 'E' :: tail) := by
    simp [String.toList]
  rw [isPause, isDash, e, h2]
  constructor
  · simp [strings.HasPrefix, List.isPrefixOf, String.toList]
  · rfl

/-! ## Buffers only grow -/

/-- The `switch` on a marker line of the `=== RUN` kind. -/
theorem streamStep_run (st : ReaderState) (res : Result) (line n : Str)
    (hr : regexp.FindStringSubmatch runRegex line = some n) :
    streamStep st res line =
      ({ st with currentTest := n },
        if (mapGet res.testBuffers n).isSome then res
        else { res with testBuffers := mapSet res.testBuffers n [] }) := by
  obtain ⟨-, hp⟩ := marker_not_dash_pause runRegex line n (Or.inl rfl) hr
  obtain ⟨hc, hn⟩ := (marker_exclusive line n).2 hr
  unfold isPause at hp
  unfold streamStep
  rw [if_neg (by rw [hp]; simp)]
  simp only [hc, hn, hr]

/-- The loop body on a `=== RUN` line outside summary mode, started or not. -/
theorem loopBody_run (st : ReaderState) (res : Result) (line n : Str)
    (hi : st.inSummary = false) (hr : regexp.FindStringSubmatch runRegex line = some n) :
    loopBody st res line =
      ({ st with started := true, currentTest := n },
        if (mapGet res.testBuffers n).isSome then res
        else { res with testBuffers := mapSet res.testBuffers n [] }) := by
  obtain ⟨hd, -⟩ := marker_not_dash_pause runRegex line n (Or.inl rfl) hr
  have hm : regexp.MatchString runRegex line = true := by
    unfold regexp.MatchString; rw [hr]; rfl
  by_cases hs : st.started = true
  · rw [loopBody_stream st res line hs hi hd, streamStep_run st res line n hr]
    have : ({ st with started := true, currentTest := n } : ReaderState) =
        { st with currentTest := n } := by
      cases st; simp_all
    rw [this]
  · have hs2 : st.started = false := by simpa using hs
    rw [loopBody_start st res line hs2 hm,
      loopBody_stream { st with started := true } res line rfl hi hd,
      streamStep_run _ res line n hr]

/-- The `switch` keeps every buffer and only appends to it. -/
theorem streamStep_keeps (st : ReaderState) (res : Result) (line n : Str) (old : List Str)
    (h : mapGet res.testBuffers n = some old) :
    ∃ more, mapGet (streamStep st res line).2.testBuffers n = some (old ++ more) := by
  unfold streamStep
  split
  · exact ⟨[], by simpa using h⟩
  · split
    · exact ⟨[], by simpa using h⟩
    · split
      · split <;> exact ⟨[], by simpa using h⟩
      · split
        · rename_i name hr
          by_cases hex : (mapGet res.testBuffers name).isSome = true
          · rw [if_pos hex]
            exact ⟨[], by simpa using h⟩
          · rw [if_neg hex]
            refine ⟨[], ?_⟩
            have hne : name ≠ n := by
              intro e
              rw [e, h] at hex
              exact hex rfl
            simp only [mapGet_mapSet, if_neg hne, List.append_nil]
            exact h
        · split
          · by_cases e : st.currentTest = n
            · refine ⟨[line], ?_⟩
              simp only [mapGet_mapSet, e, if_true, h, Option.getD_some]
            · refine ⟨[], ?_⟩
              simp only [mapGet_mapSet, if_neg e, List.append_nil]
              exact h
          · exact ⟨[], by simpa using h⟩

/-- The loop body keeps every buffer and only appends to it. -/
theorem loopBody_keeps (st : ReaderState) (res : Result) (line n : Str) (old : List Str)
    (h : mapGet res.testBuffers n = some old) :
    ∃ more, mapGet (loopBody st res line).2.testBuffers n = some (old ++ more) := by
  rcases loopBody_cases st res line with e | e | ⟨-, -, e⟩
  · rw [e]; exact ⟨[], by simpa using h⟩
  · rw [e]
    rcases summaryStep_cases { st with started := true, inSummary := true } res line with
      h2 | h2 | ⟨s, h2⟩ <;> rw [h2] <;> exact ⟨[], by simpa using h⟩
  · rw [e]
    exact streamStep_keeps _ res line n old h

/-- The scanning loop keeps every buffer and only appends to it. -/
theorem processLines_keeps (st : ReaderState) (res : Result) (ls : List Str) (n : Str)
    (old : List Str) (h : mapGet res.testBuffers n = some old) :
    ∃ more, mapGet (processLines st res ls).2.testBuffers n = some (old ++ more) := by
  induction ls generalizing st res old with
  | nil => exact ⟨[], by simpa [processLines] using h⟩
  | cons l ls ih =>
    by_cases hstop : st.stopParsing = true
    · rw [processLines_stopped st res _ hstop]
      exact ⟨[], by simpa using h⟩
    · have h2 : st.stopParsing = false := by simpa using hstop
      rw [processLines_cons_running _ _ _ _ h2]
      obtain ⟨m1, hm1⟩ := loopBody_keeps st res l n old h
      obtain ⟨m2, hm2⟩ := ih (loopBody st res l).1 (loopBody st res l).2 (old ++ m1) hm1
      exact ⟨m1 ++ m2, by rw [hm2, List.append_assoc]⟩

/-! ## What is stored in the buffers -/

theorem mem_mapSet (m : Buffers) (k : Str) (v : List Str) (p : Str × List Str)
    (h : p ∈ mapSet m k v) : p ∈ m ∨ p = (k, v) := by
  induction m with
  | nil =>
    simp only [mapSet, List.mem_singleton] at h
    exact Or.inr h
  | cons q m ih =>
    rcases q with ⟨k1, v1⟩
    by_cases e : k1 = k
    · simp only [mapSet, e, if_true, List.mem_cons] at h
      rcases h with h | h
      · exact Or.inr h
      · exact Or.inl (List.mem_cons_of_mem _ h)
    · simp only [mapSet, e, if_false, List.mem_cons] at h
      rcases h with h | h
      · exact Or.inl (by rw [h]; exact List.mem_cons_self _ _)
      · rcases ih h with h2 | h2
        · exact Or.inl (List.mem_cons_of_mem _ h2)
        · exact Or.inr h2

theorem mapGet_mem (m : Buffers) (k : Str) (v : List Str) (h : mapGet m k = some v) :
    (k, v) ∈ m := by
  induction m with
  | nil => simp [mapGet] at h
  | cons q m ih =>
    rcases q with ⟨k1, v1⟩
    by_cases e : k1 = k
    · simp only [mapGet, e, if_true, Option.some.injEq] at h
      rw [e, h]
      exact List.mem_cons_self _ _
    · simp only [mapGet, e, if_false] at h
      exact List.mem_cons_of_mem _ (ih h)

/-- Whatever holds of every stored line, and of the line read when it is
neither a marker nor a `---` line, holds of every stored line after the loop
body. -/
theorem loopBody_stored (P : Str → Prop) (st : ReaderState) (res : Result) (line : Str)
    (hres : ∀ p ∈ res.testBuffers, ∀ l ∈ p.2, P l)
    (hline : isMarker line = false → isDash line = false → P line) :
    ∀ p ∈ (loopBody st res line).2.testBuffers, ∀ l ∈ p.2, P l := by
  rcases loopBody_cases st res line with e | e | ⟨hi, hd, e⟩
  · rw [e]; exact hres
  · rw [e]
    rcases summaryStep_cases { st with started := true, inSummary := true } res line with
      h2 | h2 | ⟨s, h2⟩ <;> rw [h2] <;> exact hres
  · rw [e]
    obtain ⟨s1, hs1, hi1, hs1e⟩ : ∃ s1 : ReaderState, s1.started = true ∧
        s1.inSummary = false ∧ s1 = { st with started := true } :=
      ⟨{ st with started := true }, rfl, hi, rfl⟩
    rw [← hs1e]
    by_cases hm : isMarker line = true
    · obtain ⟨name, hname⟩ : ∃ name, isPause line = true ∨
          regexp.FindStringSubmatch contRegex line = some name ∨
          regexp.FindStringSubmatch nameRegex line = some name ∨
          regexp.FindStringSubmatch runRegex line = some name := by
        simp only [isMarker, Bool.or_eq_true, regexp.MatchString, Option.isSome_iff_exists] at hm
        rcases hm with ((h | ⟨a, h⟩) | ⟨a, h⟩) | ⟨a, h⟩
        · exact ⟨[], Or.inl h⟩
        · exact ⟨a, Or.inr (Or.inl h)⟩
        · exact ⟨a, Or.inr (Or.inr (Or.inl h))⟩
        · exact ⟨a, Or.inr (Or.inr (Or.inr h))⟩
      rcases hname with h | h | h | h
      · unfold isPause at h
        unfold streamStep
        rw [if_pos h]
        exact hres
      · have := loopBody_cont s1 res line name hs1 hi1 h
        rw [loopBody_stream s1 res line hs1 hi1 hd] at this
        rw [this]
        exact hres
      · have := loopBody_name s1 res line name hs1 hi1 h
        rw [loopBody_stream s1 res line hs1 hi1 hd] at this
        rw [this]
        split <;> exact hres
      · rw [streamStep_run _ res line name h]
        split
        · exact hres
        · intro p hp l hl
          rcases mem_mapSet _ _ _ _ hp with h2 | h2
          · exact hres p h2 l hl
          · rw [h2] at hl
            simp at hl
    · have hm2 : isMarker line = false := by simpa using hm
      rw [streamStep_plain _ res line hm2]
      split
      · intro p hp l hl
        rcases mem_mapSet _ _ _ _ hp with h2 | h2
        · exact hres p h2 l hl
        · rw [h2] at hl
          rcases List.mem_append.mp hl with h3 | h3
          · cases hg : mapGet res.testBuffers s1.currentTest with
            | none => simp [hg] at h3
            | some v =>
              simp only [hg, Option.getD_some] at h3
              exact hres _ (mapGet_mem _ _ _ hg) l h3
          · rw [List.mem_singleton.mp h3]
            exact hline hm2 hd
      · exact hres

theorem processLines_stored (P : Str → Prop) (st : ReaderState) (res : Result) (ls : List Str)
    (hres : ∀ p ∈ res.testBuffers, ∀ l ∈ p.2, P l)
    (hls : ∀ line ∈ ls, isMarker line = false → isDash line = false → P line) :
    ∀ p ∈ (processLines st res ls).2.testBuffers, ∀ l ∈ p.2, P l := by
  induction ls generalizing st res with
  | nil => exact hres
  | cons x xs ih =>
    by_cases hstop : st.stopParsing = true
    · rw [processLines_stopped st res _ hstop]; exact hres
    · have h2 : st.stopParsing = false := by simpa using hstop
      rw [processLines_cons_running _ _ _ _ h2]
      exact ih _ _ (loopBody_stored P st res x hres (hls x (List.mem_cons_self _ _)))
        (fun line hl => hls line (List.mem_cons_of_mem _ hl))

/-! ## The active test and the pass-through output -/

/-- When the names of the markers are not empty, the active test of a started
reader outside summary mode is not empty, and nothing is printed. -/
theorem loopBody_nonempty (st : ReaderState) (res : Result) (line : Str)
    (hinv : st.started = true → st.inSummary = false → st.currentTest ≠ [])
    (hline : ∀ lit, lit = runRegex ∨ lit = nameRegex ∨ lit = contRegex →
      ∀ n, regexp.FindStringSubmatch lit line = some n → n ≠ []) :
    ((loopBody st res line).1.started = true → (loopBody st res line).1.inSummary = false →
        (loopBody st res line).1.currentTest ≠ []) ∧
      (loopBody st res line).2.stdout = res.stdout := by
  by_cases hi : st.inSummary = true
  · obtain ⟨-, h2, -, -, h5, -⟩ := loopBody_in_summary st res line hi
    exact ⟨fun _ h => (by rw [h5] at h; cases h), h2⟩
  have hi2 : st.inSummary = false := by simpa using hi
  by_cases hs : st.started = true
  · by_cases hd : isDash line = true
    · rw [loopBody_dash st res line hs hd]
      rcases summaryStep_cases { st with inSummary := true } res line with
        h2 | h2 | ⟨s, h2⟩ <;> rw [h2] <;> exact ⟨fun _ h => (by cases h), rfl⟩
    · have hd2 : isDash line = false := by simpa using hd
      have hct := hinv hs hi2
      rw [loopBody_stream st res line hs hi2 hd2]
      by_cases hm : isMarker line = true
      · refine ⟨fun _ _ => ?_, (streamStep_marker st res line hm).2⟩
        simp only [isMarker, Bool.or_eq_true, regexp.MatchString, Option.isSome_iff_exists] at hm
        rcases hm with ((h | ⟨a, h⟩) | ⟨a, h⟩) | ⟨a, h⟩
        · unfold isPause at h
          unfold streamStep
          rw [if_pos h]
          exact hct
        · have e := loopBody_cont st res line a hs hi2 h
          rw [loopBody_stream st res line hs hi2 hd2] at e
          rw [e]
          exact hline _ (Or.inr (Or.inr rfl)) a h
        · have e := loopBody_name st res line a hs hi2 h
          rw [loopBody_stream st res line hs hi2 hd2] at e
          rw [e]
          split
          · rename_i hc
            exact hc.1
          · exact hline _ (Or.inr (Or.inl rfl)) a h
        · rw [streamStep_run st res line a h]
          exact hline _ (Or.inl rfl) a h
      · have hm2 : isMarker line = false := by simpa using hm
        rw [streamStep_plain st res line hm2, if_pos hct]
        exact ⟨fun _ _ => hct, rfl⟩
  · have hs2 : st.started = false := by simpa using hs
    by_cases hm : regexp.MatchString runRegex line = true
    · obtain ⟨n, hn⟩ := Option.isSome_iff_exists.mp hm
      rw [loopBody_run st res line n hi2 hn]
      refine ⟨fun _ _ => hline _ (Or.inl rfl) n hn, ?_⟩
      split <;> rfl
    · have hm2 : regexp.MatchString runRegex line = false := by simpa using hm
      rw [loopBody_skip st res line hs2 hm2]
      exact ⟨fun h => (by rw [hs2] at h; cases h), rfl⟩

theorem processLines_nonempty (st : ReaderState) (res : Result) (ls : List Str)
    (hinv : st.started = true → st.inSummary = false → st.currentTest ≠ [])
    (hls : ∀ line ∈ ls, ∀ lit, lit = runRegex ∨ lit = nameRegex ∨ lit = contRegex →
      ∀ n, regexp.FindStringSubmatch lit line = some n → n ≠ []) :
    ((processLines st res ls).1.started = true → (processLines st res ls).1.inSummary = false →
        (processLines st res ls).1.currentTest ≠ []) ∧
      (processLines st res ls).2.stdout = res.stdout := by
  induction ls generalizing st res with
  | nil => exact ⟨hinv, rfl⟩
  | cons x xs ih =>
    by_cases hstop : st.stopParsing = true
    · rw [processLines_stopped st res _ hstop]; exact ⟨hinv, rfl⟩
    · have h2 : st.stopParsing = false := by simpa using hstop
      rw [processLines_cons_running _ _ _ _ h2]
      obtain ⟨a1, a2⟩ := loopBody_nonempty st res x hinv (hls x (List.mem_cons_self _ _))
      obtain ⟨b1, b2⟩ := ih (loopBody st res x).1 (loopBody st res x).2 a1
        (fun line hl => hls line (List.mem_cons_of_mem _ hl))
      exact ⟨b1, b2.trans a2⟩

/-! ## The effect of a line does not depend on the result -/

/-- The summary branch, through `summaryOf`. -/
theorem summaryStep_eq (st : ReaderState) (res : Result) (line : Str) :
    summaryStep st res line =
      if isTerminator line = true then ({ st with stopParsing := true }, res)
      else (st, { res with summaryRecords := res.summaryRecords ++ (summaryOf line).toList }) := by
  have same : ({ res with summaryRecords := res.summaryRecords ++ [] } : Result) = res := by
    cases res; simp
  unfold summaryStep summaryOf isTerminator
  simp only [beq_iff_eq]
  split
  · rfl
  · split
    · split
      · rfl
      · simp only [Option.toList, same]
    · simp only [Option.toList, same]

/-- The effect of the loop body of a started reader on the result: what it
appends to each buffer, to the output and to the summary list, and the new
state, are the same for every result. -/
theorem loopBody_delta_started (st : ReaderState) (line : Str) (hs : st.started = true) :
    ∃ (st2 : ReaderState) (add : Str → List Str) (out : List Str) (new : List TestSummary),
      ∀ res : Result, (loopBody st res line).1 = st2 ∧
        (∀ n, bufferOf (loopBody st res line).2 n = bufferOf res n ++ add n) ∧
        (loopBody st res line).2.stdout = res.stdout ++ out ∧
        (loopBody st res line).2.summaryRecords = res.summaryRecords ++ new := by
  have viaSummary : ∀ s : ReaderState, ∃ (st2 : ReaderState) (new : List TestSummary),
      ∀ res : Result, (summaryStep s res line).1 = st2 ∧
        (summaryStep s res line).2.testBuffers = res.testBuffers ∧
        (summaryStep s res line).2.stdout = res.stdout ∧
        (summaryStep s res line).2.summaryRecords = res.summaryRecords ++ new := by
    intro s
    by_cases ht : isTerminator line = true
    · refine ⟨{ s with stopParsing := true }, [], fun res => ?_⟩
      rw [summaryStep_eq, if_pos ht]
      exact ⟨rfl, rfl, rfl, by simp⟩
    · refine ⟨s, (summaryOf line).toList, fun res => ?_⟩
      rw [summaryStep_eq, if_neg ht]
      exact ⟨rfl, rfl, rfl, rfl⟩
  by_cases hi : st.inSummary = true
  · obtain ⟨st2, new, h⟩ := viaSummary st
    refine ⟨st2, fun _ => [], [], new, fun res => ?_⟩
    rw [loopBody_summary st res line hs hi]
    obtain ⟨h1, h2, h3, h4⟩ := h res
    refine ⟨h1, fun n => ?_, by rw [h3]; simp, h4⟩
    unfold bufferOf
    rw [h2]; simp
  have hi2 : st.inSummary = false := by simpa using hi
  by_cases hd : isDash line = true
  · obtain ⟨st2, new, h⟩ := viaSummary { st with inSummary := true }
    refine ⟨st2, fun _ => [], [], new, fun res => ?_⟩
    rw [loopBody_dash st res line hs hd]
    obtain ⟨h1, h2, h3, h4⟩ := h res
    refine ⟨h1, fun n => ?_, by rw [h3]; simp, h4⟩
    unfold bufferOf
    rw [h2]; simp
  have hd2 : isDash line = false := by simpa using hd
  by_cases hm : isMarker line = true
  · refine ⟨(streamStep st Result.empty line).1, fun _ => [], [], [], fun res => ?_⟩
    rw [loopBody_stream st res line hs hi2 hd2]
    obtain ⟨g1, g2⟩ := streamStep_marker st res line hm
    refine ⟨streamStep_state st res Result.empty line, fun n => by rw [g1 n]; simp,
      by rw [g2]; simp, by rw [(streamStep_flags st res line).2.2.2]; simp⟩
  · have hm2 : isMarker line = false := by simpa using hm
    refine ⟨st, fun n => if n = [] then [] else linesOf [(st.currentTest, line)] n,
      linesOf [(st.currentTest, line)] [], [], fun res => ?_⟩
    rw [loopBody_stream st res line hs hi2 hd2]
    obtain ⟨p1, p2, p3, p4, p5⟩ := streamStep_plain_effect st res line hm2
    refine ⟨p1, fun n => ?_, p4, by rw [p5]; simp⟩
    show bufferOf (streamStep st res line).2 n =
      bufferOf res n ++ (if n = [] then [] else linesOf [(st.currentTest, line)] n)
    by_cases hn : n = []
    · rw [if_pos hn, hn, p3]; simp
    · rw [if_neg hn, p2 n hn]

/-- The same for every reader state. -/
theorem loopBody_delta (st : ReaderState) (line : Str) :
    ∃ (st2 : ReaderState) (add : Str → List Str) (out : List Str) (new : List TestSummary),
      ∀ res : Result, (loopBody st res line).1 = st2 ∧
        (∀ n, bufferOf (loopBody st res line).2 n = bufferOf res n ++ add n) ∧
        (loopBody st res line).2.stdout = res.stdout ++ out ∧
        (loopBody st res line).2.summaryRecords = res.summaryRecords ++ new := by
  by_cases hs : st.started = true
  · exact loopBody_delta_started st line hs
  · have hs2 : st.started = false := by simpa using hs
    by_cases hm : regexp.MatchString runRegex line = true
    · obtain ⟨st2, add, out, new, h⟩ :=
        loopBody_delta_started { st with started := true } line rfl
      refine ⟨st2, add, out, new, fun res => ?_⟩
      rw [loopBody_start st res line hs2 hm]
      exact h res
    · have hm2 : regexp.MatchString runRegex line = false := by simpa using hm
      refine ⟨st, fun _ => [], [], [], fun res => ?_⟩
      rw [loopBody_skip st res line hs2 hm2]
      exact ⟨rfl, fun n => by simp, by simp, by simp⟩

/-- The same for the scanning loop over any lines. -/
theorem processLines_delta (st : ReaderState) (ls : List Str) :
    ∃ (st2 : ReaderState) (add : Str → List Str) (out : List Str) (new : List TestSummary),
      ∀ res : Result, (processLines st res ls).1 = st2 ∧
        (∀ n, bufferOf (processLines st res ls).2 n = bufferOf res n ++ add n) ∧
        (processLines st res ls).2.stdout = res.stdout ++ out ∧
        (processLines st res ls).2.summaryRecords = res.summaryRecords ++ new := by
  induction ls generalizing st with
  | nil => exact ⟨st, fun _ => [], [], [], fun res => ⟨rfl, fun n => by simp [processLines],
      by simp [processLines], by simp [processLines]⟩⟩
  | cons l ls ih =>
    by_cases hstop : st.stopParsing = true
    · refine ⟨st, fun _ => [], [], [], fun res => ?_⟩
      rw [processLines_stopped st res _ hstop]
      exact ⟨rfl, fun n => by simp, by simp, by simp⟩
    · have h2 : st.stopParsing = false := by simpa using hstop
      obtain ⟨s1, add1, out1, new1, h1⟩ := loopBody_delta st l
      obtain ⟨s2, add2, out2, new2, hh2⟩ := ih s1
      refine ⟨s2, fun n => add1 n ++ add2 n, out1 ++ out2, new1 ++ new2, fun res => ?_⟩
      rw [processLines_cons_running _ _ _ _ h2]
      obtain ⟨a1, a2, a3, a4⟩ := h1 res
      rw [a1]
      obtain ⟨b1, b2, b3, b4⟩ := hh2 (loopBody st res l).2
      refine ⟨b1, fun n => ?_, ?_, ?_⟩
      · rw [b2 n, a2 n, List.append_assoc]
      · rw [b3, a3, List.append_assoc]
      · rw [b4, a4, List.append_assoc]

/-! ## The trailer -/

/-- A record is built from a line exactly when its trimmed text begins with
`---` and it has at least three tokens. -/
theorem summaryOf_isSome (line : Str) :
    (summaryOf line).isSome = true ↔ isDash line = true ∧ 3 ≤ (strings.Fields line).length := by
  rw [← Fields_TrimSpace line]
  unfold summaryOf isDash
  simp only []
  by_cases hd : strings.HasPrefix (strings.TrimSpace line) "---".toList = true
  · rw [if_pos hd]
    split
    · rename_i h
      rw [h]
      exact ⟨fun _ => ⟨hd, by simp⟩, fun _ => rfl⟩
    · rename_i h
      constructor
      · intro hc; cases hc
      · intro hc
        exfalso
        match hf : strings.Fields (strings.TrimSpace line), hc.2 with
        | [], h3 => simp at h3
        | [_], h3 => simp at h3
        | [_, _], h3 => simp at h3
        | a :: b :: c :: more, _ => exact h a b c more hf
  · rw [if_neg hd]
    exact ⟨fun hc => (by cases hc), fun hc => absurd hc.1 hd⟩

/-- The summary list after a stretch read in summary mode: the records of the
lines before the terminator are appended, in order. -/
theorem processLines_summary (st : ReaderState) (res : Result) (ls : List Str)
    (hs : st.started = true) (hi : st.inSummary = true) (hp : st.stopParsing = false) :
    (processLines st res ls).2.summaryRecords =
      res.summaryRecords ++ (ls.takeWhile (fun l => !isTerminator l)).filterMap summaryOf := by
  induction ls generalizing res with
  | nil => simp [processLines]
  | cons l ls ih =>
    rw [processLines_cons_running _ _ _ _ hp, loopBody_summary st res l hs hi, summaryStep_eq]
    by_cases ht : isTerminator l = true
    · rw [if_pos ht, processLines_stopped _ _ _ rfl]
      simp [List.takeWhile_cons, ht]
    · rw [if_neg ht, ih]
      have ht2 : isTerminator l = false := by simpa using ht
      cases hso : summaryOf l <;>
        simp [List.takeWhile_cons, ht2, List.filterMap_cons, hso, Option.toList]

/-- The summary list after a trailer that a started reader outside summary mode
meets: the trailer begins with a `---` line. -/
theorem processLines_trailer (st : ReaderState) (res : Result) (trailer : List Str)
    (hs : st.started = true) (hp : st.stopParsing = false)
    (ht : ∀ d, trailer.head? = some d → isDash d = true) :
    (processLines st res trailer).2.summaryRecords =
      res.summaryRecords ++
        (trailer.takeWhile (fun l => !isTerminator l)).filterMap summaryOf := by
  cases trailer with
  | nil => simp [processLines]
  | cons d tl =>
    have hd := ht d rfl
    have hnt : isTerminator d = false := by
      unfold isDash at hd
      have := dash_not_FAIL _ hd
      unfold isTerminator
      simpa using this
    rw [processLines_cons_running _ _ _ _ hp, loopBody_dash st res d hs hd, summaryStep_eq,
      if_neg (by simp [hnt]), processLines_summary { st with inSummary := true } _ tl hs rfl hp]
    cases hso : summaryOf d <;>
      simp [List.takeWhile_cons, hnt, List.filterMap_cons, hso, Option.toList]

/-! ## The serialise mode, the write mode and the round trip -/

theorem bufferLines_eq (indent : Str) (b : Buffers) (name : Str) :
    bufferLines indent b name =
      ((mapGet b name).getD []).map (fun line => indent ++ "    ".toList ++ line) := by
  unfold bufferLines
  cases mapGet b name <;> rfl

theorem serialiseLoop_eq (reTest : Str → Bool) (b : Buffers) (xs : List TestSummary) :
    serialiseLoop reTest b xs =
      (xs.filter (fun s => reTest s.Name)).flatMap (fun s =>
        (List.replicate (4 * s.Level) ' ' ++ "--- ".toList ++ s.Status ++ ": ".toList ++ s.Name ++
            " (".toList ++ s.Time ++ ")".toList) ::
          ((mapGet b s.Name).getD []).map (fun line => List.replicate (4 * s.Level + 4) ' ' ++ line))
      := by
  have hr : ∀ n, strings.Repeat [' ', ' ', ' ', ' '] n = List.replicate (4 * n) ' ' :=
    Repeat_blanks
  have hr4 : ∀ n, List.replicate (4 * n + 4) ' ' = List.replicate (4 * n) ' ' ++
      [' ', ' ', ' ', ' '] := by
    intro n
    rw [List.replicate_add]
    rfl
  induction xs with
  | nil => rfl
  | cons x xs ih =>
    by_cases h : reTest x.Name = true
    · simp [serialiseLoop, h, ih, summaryLine, bufferLines_eq, hr, hr4, String.toList,
        List.flatMap_cons]
    · simp [serialiseLoop, h, ih]

theorem Trim_parens_any (d : Str)
    (hh : ∀ c, d.head? = some c → c ≠ '(' ∧ c ≠ ')')
    (hl : ∀ c, d.getLast? = some c → c ≠ '(' ∧ c ≠ ')') :
    strings.Trim ('(' :: (d ++ [')'])) "()".toList = d := by
  by_cases hne : d = []
  · rw [hne]; decide
  · exact Trim_parens d hne hh hl

/-- The parts of the line made of `k` blanks and `--- S: N (D)`: its trimmed
text begins with `---`, its tokens are `---`, `S:`, `N` and `(D)`, and its
indent is `k` wide. -/
theorem status_line_shape (k : Nat) (S N D : Str)
    (hS : ∀ c ∈ S, unicode.IsSpace c = false) (hN : ∀ c ∈ N, unicode.IsSpace c = false)
    (hD : ∀ c ∈ D, unicode.IsSpace c = false) (hNne : N ≠ []) :
    isDash (List.replicate k ' ' ++ "--- ".toList ++ S ++ ": ".toList ++ N ++ " (".toList ++ D ++
        ")".toList) = true ∧
      strings.Fields (strings.TrimSpace (List.replicate k ' ' ++ "--- ".toList ++ S ++
        ": ".toList ++ N ++ " (".toList ++ D ++ ")".toList)) =
        ["---".toList, S ++ ":".toList, N, '(' :: (D ++ [')'])] ∧
      (List.replicate k ' ' ++ "--- ".toList ++ S ++ ": ".toList ++ N ++ " (".toList ++ D ++
        ")".toList).length -
        (strings.TrimLeft (List.replicate k ' ' ++ "--- ".toList ++ S ++ ": ".toList ++ N ++
          " (".toList ++ D ++ ")".toList) " ".toList).length = k := by
  have hline : List.replicate k ' ' ++ "--- ".toList ++ S ++ ": ".toList ++ N ++ " (".toList ++ D ++
      ")".toList = List.replicate k ' ' ++
        '-' :: (("-- ".toList ++ S ++ ": ".toList ++ N ++ " (".toList ++ D) ++ [')']) := by
    simp [String.toList]
  have htrim := TrimSpace_indented k '-' ')' ("-- ".toList ++ S ++ ": ".toList ++ N ++
    " (".toList ++ D) (by decide) (by decide)
  have hindent := indent_width k '-' (("-- ".toList ++ S ++ ": ".toList ++ N ++
    " (".toList ++ D) ++ [')']) (by decide)
  rw [← hline] at htrim hindent
  have hbody : '-' :: (("-- ".toList ++ S ++ ": ".toList ++ N ++ " (".toList ++ D) ++ [')']) =
      "---".toList ++ ' ' :: ((S ++ ":".toList) ++ ' ' :: (N ++ ' ' :: ('(' :: (D ++ [')'])))) := by
    simp [String.toList]
  have hsp : unicode.IsSpace ' ' = true := by decide
  refine ⟨?_, ?_, hindent⟩
  · unfold isDash
    rw [htrim, hbody]
    unfold strings.HasPrefix
    exact List.isPrefixOf_iff_prefix.mpr ⟨_, rfl⟩
  · rw [htrim, hbody, Fields_cons_token _ _ ' ' hsp (by decide) (by decide),
      Fields_cons_token _ _ ' ' hsp
        (fun c hc => by
          rcases List.mem_append.mp hc with h | h
          · exact hS c h
          · rw [List.mem_singleton.mp h]; decide)
        (by simp [String.toList]),
      Fields_cons_token _ _ ' ' hsp hN hNne,
      Fields_single _
        (fun c hc => by
          rcases List.mem_cons.mp hc with h | h
          · rw [h]; decide
          · rcases List.mem_append.mp h with h | h
            · exact hD c h
            · rw [List.mem_singleton.mp h]; decide)
        (by simp)]

/-- The record built from the line made of `k` blanks and `--- S: N (D)`. -/
theorem summaryOf_status_line (k : Nat) (S N D : Str)
    (hS : ∀ c ∈ S, unicode.IsSpace c = false) (hN : ∀ c ∈ N, unicode.IsSpace c = false)
    (hD : ∀ c ∈ D, unicode.IsSpace c = false) (hNne : N ≠ [])
    (hDh : ∀ c, D.head? = some c → c ≠ '(' ∧ c ≠ ')')
    (hDl : ∀ c, D.getLast? = some c → c ≠ '(' ∧ c ≠ ')') :
    summaryOf (List.replicate k ' ' ++ "--- ".toList ++ S ++ ": ".toList ++ N ++ " (".toList ++ D ++
        ")".toList) = some { Status := S, Name := N, Time := D, Level := k / 4 } := by
  obtain ⟨h1, h2, h3⟩ := status_line_shape k S N D hS hN hD hNne
  unfold isDash at h1
  unfold summaryOf
  simp only [h1, h2, h3, if_true, TrimSuffix_colon, Trim_parens_any D hDh hDl]

/-! ## The owner of a plain line is the active test -/

/-- The attribution of a stretch of the streaming phase, cut in two: the second
part is attributed from the state the reader has reached after the first. -/
theorem attribution_append (st : ReaderState) (res : Result) (m1 m2 : List Str)
    (hs : st.started = true) (hi : st.inSummary = false) (hp : st.stopParsing = false)
    (hm1 : ∀ l ∈ m1, isDash l = false) :
    attribution st (m1 ++ m2) =
      attribution st m1 ++ attribution (processLines st res m1).1 m2 := by
  induction m1 generalizing st res with
  | nil => rfl
  | cons x xs ih =>
    have hd := hm1 x (List.mem_cons_self _ _)
    rw [processLines_cons_running _ _ _ _ hp, loopBody_stream st res x hs hi hd]
    obtain ⟨f1, f2, f3, -⟩ := streamStep_flags st res x
    have ih2 := ih (streamStep st res x).1 (streamStep st res x).2 (f1.trans hs) (f2.trans hi)
      (f3.trans hp) (fun l hl => hm1 l (List.mem_cons_of_mem _ hl))
    by_cases hm : isMarker x = true
    · simp only [List.cons_append, attribution, hm, if_true,
        streamStep_state st Result.empty res x]
      exact ih2
    · have hm2 : isMarker x = false := by simpa using hm
      have hst := (streamStep_plain_effect st res x hm2).1
      rw [hst] at ih2
      simp only [List.cons_append, attribution, hm2, Bool.false_eq_true, if_false, hst]
      exact congrArg _ ih2

/-- The scanning loop up to a line of the streaming stretch that follows the
first `=== RUN` marker: the reader is in the streaming phase. -/
theorem processLines_to_stream (pre m1 : List Str) (run : Str) (res : Result)
    (hpre : ∀ l ∈ pre, regexp.MatchString runRegex l = false)
    (hrun : regexp.MatchString runRegex run = true)
    (hm1 : ∀ l ∈ m1, isDash l = false) :
    processLines ReaderState.init res (pre ++ run :: m1) =
        processLines (loopBody ReaderState.init res run).1
          (loopBody ReaderState.init res run).2 m1 ∧
      (processLines ReaderState.init res (pre ++ run :: m1)).1.started = true ∧
      (processLines ReaderState.init res (pre ++ run :: m1)).1.inSummary = false ∧
      (processLines ReaderState.init res (pre ++ run :: m1)).1.stopParsing = false := by
  obtain ⟨r1, r2, r3, -, -⟩ := loopBody_first_run res run hrun
  have e : processLines ReaderState.init res (pre ++ run :: m1) =
      processLines (loopBody ReaderState.init res run).1
        (loopBody ReaderState.init res run).2 m1 := by
    rw [processLines_append, processLines_prestart res pre hpre,
      processLines_cons_running _ _ _ _ rfl]
  obtain ⟨a1, a2, a3, -⟩ := processLines_attribution _ (loopBody ReaderState.init res run).2
    m1 r1 r2 r3 hm1
  rw [e]
  exact ⟨rfl, a1, a2, a3⟩

/-! ## The standard output of a whole run -/

/-- Sources whose markers all carry a non-empty name print nothing while they
are parsed. -/
theorem foldl_processReader_stdout (inputs : List (List Str)) (res : Result)
    (h : ∀ input ∈ inputs, ∀ line ∈ input,
      regexp.FindStringSubmatch runRegex line ≠ some [] ∧
        regexp.FindStringSubmatch nameRegex line ≠ some [] ∧
        regexp.FindStringSubmatch contRegex line ≠ some []) :
    (inputs.foldl processReader res).stdout = res.stdout := by
  induction inputs generalizing res with
  | nil => rfl
  | cons input rest ih =>
    rw [List.foldl_cons, ih _ (fun i hi => h i (List.mem_cons_of_mem _ hi))]
    unfold processReader
    refine (processLines_nonempty ReaderState.init res input (fun hs => by cases hs) ?_).2
    intro line hl lit hlit n hn e
    obtain ⟨h1, h2, h3⟩ := h input (List.mem_cons_self _ _) line hl
    rw [e] at hn
    rcases hlit with rfl | rfl | rfl
    · exact h1 hn
    · exact h2 hn
    · exact h3 hn

/-! ## The claims -/

/-- C1, as the code has it: between the first `=== RUN` marker and the first
`---` line after it, every line that is no RUN/NAME/CONT/PAUSE marker is owned
by the active test at the moment it is read. With `s1` the reader state after
the `=== RUN` line, `attribution s1 mid` lists these lines in input order, each
paired with `currentTest` as the reader has it when the line is read: for every
cut `mid = m1 ++ l :: m2` at a plain line `l`, with `sb` and `rb` the state and
result reached just before `l`, the pair of `l` is `(sb.currentTest, l)`;
reading `l` leaves the state alone and, when `sb.currentTest` is non-empty,
appends `l` to the buffer of that test and does nothing else, and when it is
the empty name prints `l` to the pass-through output and does nothing else. At
the end of the source the buffer of every non-empty name is exactly the lines
it owns, in order, the pass-through output is exactly the lines owned by the
empty name, in order, and the empty name has no buffered line: none is dropped,
none is stored twice, and the order of the input is kept. -/
theorem plain_lines_attributed (pre mid rest : List Str) (run : Str) (s1 : ReaderState)
    (r1 : Result)
    (hpre : ∀ l ∈ pre, regexp.MatchString runRegex l = false)
    (hrun : regexp.MatchString runRegex run = true)
    (hmid : ∀ l ∈ mid, isDash l = false)
    (hrest : ∀ d, rest.head? = some d → isDash d = true)
    (h1 : loopBody ReaderState.init Result.empty run = (s1, r1)) :
    (attribution s1 mid).map Prod.snd = mid.filter (fun l => !isMarker l) ∧
      (∀ n, n ≠ [] →
        bufferOf (processReader Result.empty (pre ++ run :: (mid ++ rest))) n =
          linesOf (attribution s1 mid) n) ∧
      bufferOf (processReader Result.empty (pre ++ run :: (mid ++ rest))) [] = [] ∧
      (processReader Result.empty (pre ++ run :: (mid ++ rest))).stdout =
        linesOf (attribution s1 mid) [] ∧
      ∀ (m1 m2 : List Str) (l : Str) (sb : ReaderState) (rb : Result),
        mid = m1 ++ l :: m2 → isMarker l = false →
        processLines ReaderState.init Result.empty (pre ++ run :: m1) = (sb, rb) →
        attribution s1 mid = attribution s1 m1 ++ (sb.currentTest, l) :: attribution sb m2 ∧
          (sb.currentTest ≠ [] →
            (processLines ReaderState.init Result.empty (pre ++ run :: (m1 ++ [l]))).1 = sb ∧
              (processLines ReaderState.init Result.empty
                (pre ++ run :: (m1 ++ [l]))).2.testBuffers =
                mapSet rb.testBuffers sb.currentTest (bufferOf rb sb.currentTest ++ [l]) ∧
              (processLines ReaderState.init Result.empty
                (pre ++ run :: (m1 ++ [l]))).2.stdout = rb.stdout ∧
              (processLines ReaderState.init Result.empty
                (pre ++ run :: (m1 ++ [l]))).2.summaryRecords = rb.summaryRecords) ∧
          (sb.currentTest = [] →
            (processLines ReaderState.init Result.empty (pre ++ run :: (m1 ++ [l]))).1 = sb ∧
              (processLines ReaderState.init Result.empty
                (pre ++ run :: (m1 ++ [l]))).2.testBuffers = rb.testBuffers ∧
              (processLines ReaderState.init Result.empty
                (pre ++ run :: (m1 ++ [l]))).2.stdout = rb.stdout ++ [l] ∧
              (processLines ReaderState.init Result.empty
                (pre ++ run :: (m1 ++ [l]))).2.summaryRecords = rb.summaryRecords) := by
  obtain ⟨r1a, r2, r3, r4, r5⟩ := loopBody_first_run Result.empty run hrun
  have e1 : processReader Result.empty (pre ++ run :: (mid ++ rest)) =
      (processLines (processLines s1 r1 mid).1 (processLines s1 r1 mid).2 rest).2 := by
    unfold processReader
    rw [processLines_append, processLines_prestart Result.empty pre hpre,
      processLines_cons_running _ _ _ _ rfl, processLines_append, h1]
  rw [h1] at r1a r2 r3 r4 r5
  simp only at r1a r2 r3 r4 r5
  obtain ⟨a1, -, -, a4, a5, a6, -⟩ := processLines_attribution s1 r1 mid r1a r2 r3 hmid
  have tail : (processLines (processLines s1 r1 mid).1 (processLines s1 r1 mid).2
        rest).2.testBuffers = (processLines s1 r1 mid).2.testBuffers ∧
      (processLines (processLines s1 r1 mid).1 (processLines s1 r1 mid).2
        rest).2.stdout = (processLines s1 r1 mid).2.stdout := by
    cases rest with
    | nil => exact ⟨rfl, rfl⟩
    | cons d tl => exact processLines_from_dash _ _ d tl a1 (hrest d rfl)
  obtain ⟨t1, t2⟩ := tail
  have hb : ∀ n, bufferOf (processReader Result.empty (pre ++ run :: (mid ++ rest))) n =
      bufferOf (processLines s1 r1 mid).2 n := by
    intro n
    unfold bufferOf
    rw [e1, t1]
  have hempty : ∀ n, bufferOf r1 n = [] := fun n => (r4 n).trans rfl
  refine ⟨attribution_lines s1 mid, ?_, ?_, ?_, ?_⟩
  · intro n hn
    rw [hb, a4 n hn, hempty]
    rfl
  · rw [hb, a5, hempty]
  · rw [e1, t2, a6, r5]
    rfl
  · intro m1 m2 l sb rb hcut hm hsb
    have hm1 : ∀ x ∈ m1, isDash x = false := fun x hx =>
      hmid x (by rw [hcut]; exact List.mem_append_left _ hx)
    have hdl : isDash l = false :=
      hmid l (by rw [hcut]; exact List.mem_append_right _ (List.mem_cons_self _ _))
    obtain ⟨p0, p1, p2, p3⟩ := processLines_to_stream pre m1 run Result.empty hpre hrun hm1
    rw [h1] at p0
    simp only at p0
    rw [hsb] at p0 p1 p2 p3
    simp only at p1 p2 p3
    have hatt : attribution s1 mid =
        attribution s1 m1 ++ (sb.currentTest, l) :: attribution sb m2 := by
      rw [hcut, attribution_append s1 r1 m1 (l :: m2) r1a r2 r3 hm1, ← p0]
      simp only [attribution, hm, Bool.false_eq_true, if_false]
    have hstep : processLines ReaderState.init Result.empty (pre ++ run :: (m1 ++ [l])) =
        streamStep sb rb l := by
      rw [show pre ++ run :: (m1 ++ [l]) = (pre ++ run :: m1) ++ [l] by simp,
        processLines_append, hsb, processLines_cons_running _ _ _ _ p3,
        loopBody_stream sb rb l p1 p2 hdl]
      rfl
    rw [hstep, streamStep_plain sb rb l hm]
    refine ⟨hatt, ?_, ?_⟩
    · intro hc
      rw [if_pos hc]
      exact ⟨rfl, rfl, rfl, rfl⟩
    · intro hc
      rw [if_neg (by simpa using hc)]
      exact ⟨rfl, rfl, rfl, rfl⟩

theorem plain_lines_attributed_witness :
    (∀ n, n ≠ [] →
        bufferOf (processReader Result.empty (["noise".toList] ++ "=== RUN TestA".toList ::
          (["a1".toList, "=== RUN TestB".toList, "b1".toList, "=== CONT TestA".toList,
            "a2".toList] ++ ["--- PASS: TestA (0.00s)".toList, "late".toList]))) n =
          linesOf [("TestA".toList, "a1".toList), ("TestB".toList, "b1".toList),
            ("TestA".toList, "a2".toList)] n) ∧
      (processReader Result.empty (["noise".toList] ++ "=== RUN TestA".toList ::
          (["a1".toList, "=== RUN TestB".toList, "b1".toList, "=== CONT TestA".toList,
            "a2".toList] ++ ["--- PASS: TestA (0.00s)".toList, "late".toList]))).stdout =
        linesOf [("TestA".toList, "a1".toList), ("TestB".toList, "b1".toList),
          ("TestA".toList, "a2".toList)] [] :=
  ⟨(plain_lines_attributed ["noise".toList]
      ["a1".toList, "=== RUN TestB".toList, "b1".toList, "=== CONT TestA".toList, "a2".toList]
      ["--- PASS: TestA (0.00s)".toList, "late".toList] "=== RUN TestA".toList
      { currentTest := "TestA".toList, lastName := [], started := true, inSummary := false,
        stopParsing := false }
      { testBuffers := [("TestA".toList, [])], summaryRecords := [], stdout := [] }
      (by decide) (by decide) (by decide) (by decide) (by decide)).2.1,
   (plain_lines_attributed ["noise".toList]
      ["a1".toList, "=== RUN TestB".toList, "b1".toList, "=== CONT TestA".toList, "a2".toList]
      ["--- PASS: TestA (0.00s)".toList, "late".toList] "=== RUN TestA".toList
      { currentTest := "TestA".toList, lastName := [], started := true, inSummary := false,
        stopParsing := false }
      { testBuffers := [("TestA".toList, [])], summaryRecords := [], stdout := [] }
      (by decide) (by decide) (by decide) (by decide) (by decide)).2.2.2.1⟩

/-- C1, as stated, fails: after the marker `=== RUN ` with the empty name the
active test is the empty name, and the plain line `hello` that follows (no
marker, no `---` line) is printed to the output and put in no buffer. -/
theorem plain_line_passed_through :
    isMarker "hello".toList = false ∧ isDash "hello".toList = false ∧
      regexp.MatchString runRegex "=== RUN ".toList = true ∧
      (processReader Result.empty ["=== RUN ".toList, "hello".toList]).testBuffers = [([], [])] ∧
      (processReader Result.empty ["=== RUN ".toList, "hello".toList]).stdout =
        ["hello".toList] := by
  decide

/-- C2: the rule of the `=== NAME n` line and subtest shadowing. In the
streaming phase a line that `^=== NAME\s+(.*)` matches with submatch `n` (such as
`=== NAME`, a run of `\s` characters, `n`): when `lastName` is non-empty and
begins with `n` followed by `/`, `currentTest` becomes `lastName` and `lastName`
stays; otherwise both become `n`; the result is untouched. And after a
`=== CONT P/C` line, lines `mid` among which there is no `---` line and no NAME
or CONT marker, and a `=== NAME P` line, the active test is `P/C`; a plain line
that follows is appended to the buffer of `P/C` and the buffer of `P` is as it
was. -/
theorem name_switch_rule :
    (∀ (st : ReaderState) (res : Result) (line n : Str),
        st.started = true → st.inSummary = false →
        regexp.FindStringSubmatch nameRegex line = some n →
        ((st.lastName ≠ [] ∧ (n ++ ['/']) <+: st.lastName) →
            loopBody st res line = ({ st with currentTest := st.lastName }, res)) ∧
          (¬(st.lastName ≠ [] ∧ (n ++ ['/']) <+: st.lastName) →
            loopBody st res line = ({ st with currentTest := n, lastName := n }, res))) ∧
      (∀ ws n : Str, ws ≠ [] → (∀ c ∈ ws, regexp.reSpace c = true) →
        (∀ c, n.head? = some c → regexp.reSpace c = false) → '\n' ∉ n →
        regexp.FindStringSubmatch nameRegex (nameRegex ++ ws ++ n) = some n) ∧
      ∀ (st : ReaderState) (res : Result) (cl nl pl P C : Str) (mid : List Str),
        st.started = true → st.inSummary = false → st.stopParsing = false →
        regexp.FindStringSubmatch contRegex cl = some (P ++ '/' :: C) →
        regexp.FindStringSubmatch nameRegex nl = some P →
        (∀ l ∈ mid, isDash l = false ∧ regexp.MatchString nameRegex l = false ∧
          regexp.MatchString contRegex l = false) →
        isDash pl = false → isMarker pl = false →
        (processLines st res (cl :: (mid ++ [nl]))).1.currentTest = P ++ '/' :: C ∧
          mapGet (processLines st res (cl :: (mid ++ [nl] ++ [pl]))).2.testBuffers
              (P ++ '/' :: C) =
            some ((mapGet (processLines st res (cl :: (mid ++ [nl]))).2.testBuffers
              (P ++ '/' :: C)).getD [] ++ [pl]) ∧
          mapGet (processLines st res (cl :: (mid ++ [nl] ++ [pl]))).2.testBuffers P =
            mapGet (processLines st res (cl :: (mid ++ [nl]))).2.testBuffers P := by
  refine ⟨?_, ?_, ?_⟩
  · intro st res line n hs hi h
    have key := loopBody_name st res line n hs hi h
    have pre : strings.HasPrefix st.lastName (n ++ "/".toList) = true ↔
        (n ++ ['/']) <+: st.lastName := by
      unfold strings.HasPrefix
      exact List.isPrefixOf_iff_prefix
    constructor
    · intro hc
      rw [key, if_pos ⟨hc.1, pre.mpr hc.2⟩]
    · intro hc
      rw [key, if_neg (fun x => hc ⟨x.1, pre.mp x.2⟩)]
  · intro ws n hne hws hn hnl
    exact FindStringSubmatch_marker nameRegex ws n hne hws hn hnl
  · intro st res cl nl pl P C mid hs hi hp hcl hnl hmid hd hm
    -- the CONT line
    obtain ⟨sa, a1, a2, a3, a4, hc⟩ : ∃ sa : ReaderState, sa.started = true ∧
        sa.inSummary = false ∧ sa.stopParsing = false ∧ sa.lastName = P ++ '/' :: C ∧
        loopBody st res cl = (sa, res) :=
      ⟨{ st with currentTest := P ++ '/' :: C, lastName := P ++ '/' :: C }, hs, hi, hp, rfl,
        loopBody_cont st res cl _ hs hi hcl⟩
    obtain ⟨m1, m2, m3, m4⟩ := processLines_streaming sa res mid a1 a2 a3 hmid
    have e1 : processLines st res (cl :: (mid ++ [nl])) =
        processLines (processLines sa res mid).1 (processLines sa res mid).2 [nl] := by
      rw [processLines_cons_running _ _ _ _ hp, hc, processLines_append]
    generalize processLines sa res mid = sb at e1 m1 m2 m3 m4
    rw [a4] at m4
    -- the NAME line
    have hpre : strings.HasPrefix sb.1.lastName (P ++ "/".toList) = true := by
      rw [m4]
      unfold strings.HasPrefix
      exact List.isPrefixOf_iff_prefix.mpr ⟨C, by simp⟩
    have hne : sb.1.lastName ≠ [] := by rw [m4]; simp
    obtain ⟨sc, c1, c2, c3, c4, e2⟩ : ∃ sc : ReaderState, sc.started = true ∧
        sc.inSummary = false ∧ sc.stopParsing = false ∧ sc.currentTest = P ++ '/' :: C ∧
        loopBody sb.1 sb.2 nl = (sc, sb.2) :=
      ⟨{ sb.1 with currentTest := sb.1.lastName }, m1, m2, m3, m4, by
        rw [loopBody_name sb.1 sb.2 nl P m1 m2 hnl, if_pos ⟨hne, hpre⟩]⟩
    have e3 : processLines st res (cl :: (mid ++ [nl])) = (sc, sb.2) := by
      rw [e1, processLines_cons_running _ _ _ _ m3, e2]
      rfl
    have e4 : processLines st res (cl :: (mid ++ [nl] ++ [pl])) = processLines sc sb.2 [pl] := by
      rw [show cl :: (mid ++ [nl] ++ [pl]) = (cl :: (mid ++ [nl])) ++ [pl] from rfl,
        processLines_append, e3]
    have hPC : sc.currentTest ≠ [] := by rw [c4]; simp
    have e5 : (processLines sc sb.2 [pl]).2.testBuffers =
        mapSet sb.2.testBuffers (P ++ '/' :: C)
          ((mapGet sb.2.testBuffers (P ++ '/' :: C)).getD [] ++ [pl]) := by
      rw [processLines_cons_running _ _ _ _ c3, loopBody_stream _ _ _ c1 c2 hd,
        streamStep_plain _ _ _ hm, if_pos hPC, c4]
      rfl
    rw [e4, e5, e3]
    refine ⟨c4, ?_, ?_⟩
    · simp [mapGet_mapSet]
    · have hne2 : P ++ '/' :: C ≠ P := by
        intro h
        have := congrArg List.length h
        simp at this
      simp [mapGet_mapSet, hne2]

theorem name_switch_rule_witness :
    (processLines
        { currentTest := [], lastName := [], started := true, inSummary := false,
          stopParsing := false }
        Result.empty
        ("=== CONT TestP/Sub".toList ::
          (["=== RUN TestQ".toList, "text".toList] ++ ["=== NAME TestP".toList]))).1.currentTest =
      "TestP".toList ++ '/' :: "Sub".toList :=
  (name_switch_rule.2.2
    { currentTest := [], lastName := [], started := true, inSummary := false,
      stopParsing := false }
    Result.empty "=== CONT TestP/Sub".toList "=== NAME TestP".toList "out".toList
    "TestP".toList "Sub".toList ["=== RUN TestQ".toList, "text".toList] rfl rfl rfl
    (by decide) (by decide) (by decide) (by decide) (by decide)).1

/-- C3: a well-formed status line yields its record. For a started reader, the
line made of `k` blanks followed by `--- S: N (D)`, where `S`, `N` and `D` hold
no white space, `N` and `D` are non-empty and `D` neither begins nor ends with a
parenthesis, puts the reader in summary mode and appends exactly the record
with status `S`, name `N`, duration `D` and level `k / 4`; nothing else
changes. -/
theorem status_line_record (st : ReaderState) (res : Result) (k : Nat) (S N D : Str)
    (hs : st.started = true)
    (hS : ∀ c ∈ S, unicode.IsSpace c = false) (hN : ∀ c ∈ N, unicode.IsSpace c = false)
    (hD : ∀ c ∈ D, unicode.IsSpace c = false) (hNne : N ≠ []) (hDne : D ≠ [])
    (hDh : ∀ c, D.head? = some c → c ≠ '(' ∧ c ≠ ')')
    (hDl : ∀ c, D.getLast? = some c → c ≠ '(' ∧ c ≠ ')') :
    loopBody st res
        (List.replicate k ' ' ++ "--- ".toList ++ S ++ ": ".toList ++ N ++ " (".toList ++ D ++
          ")".toList) =
      ({ st with inSummary := true },
       { res with summaryRecords := res.summaryRecords ++
          [{ Status := S, Name := N, Time := D, Level := k / 4 }] }) := by
  have hline : List.replicate k ' ' ++ "--- ".toList ++ S ++ ": ".toList ++ N ++ " (".toList ++ D ++
      ")".toList = List.replicate k ' ' ++
        '-' :: (("-- ".toList ++ S ++ ": ".toList ++ N ++ " (".toList ++ D) ++ [')']) := by
    simp [String.toList]
  have htrim := TrimSpace_indented k '-' ')' ("-- ".toList ++ S ++ ": ".toList ++ N ++
    " (".toList ++ D) (by decide) (by decide)
  have hindent := indent_width k '-' (("-- ".toList ++ S ++ ": ".toList ++ N ++
    " (".toList ++ D) ++ [')']) (by decide)
  rw [← hline] at htrim hindent
  have hbody : '-' :: (("-- ".toList ++ S ++ ": ".toList ++ N ++ " (".toList ++ D) ++ [')']) =
      "---".toList ++ ' ' :: ((S ++ ":".toList) ++ ' ' :: (N ++ ' ' :: ('(' :: (D ++ [')'])))) := by
    simp [String.toList]
  have hsp : unicode.IsSpace ' ' = true := by decide
  have hfields : strings.Fields ('-' :: (("-- ".toList ++ S ++ ": ".toList ++ N ++
      " (".toList ++ D) ++ [')'])) =
      ["---".toList, S ++ ":".toList, N, '(' :: (D ++ [')'])] := by
    rw [hbody, Fields_cons_token _ _ ' ' hsp (by decide) (by decide),
      Fields_cons_token _ _ ' ' hsp
        (fun c hc => by
          rcases List.mem_append.mp hc with h | h
          · exact hS c h
          · rw [List.mem_singleton.mp h]; decide)
        (by simp [String.toList]),
      Fields_cons_token _ _ ' ' hsp hN hNne,
      Fields_single _
        (fun c hc => by
          rcases List.mem_cons.mp hc with h | h
          · rw [h]; decide
          · rcases List.mem_append.mp h with h | h
            · exact hD c h
            · rw [List.mem_singleton.mp h]; decide)
        (by simp)]
  have hdash : isDash (List.replicate k ' ' ++ "--- ".toList ++ S ++ ": ".toList ++ N ++
      " (".toList ++ D ++ ")".toList) = true := by
    unfold isDash
    rw [htrim, hbody]
    unfold strings.HasPrefix
    exact List.isPrefixOf_iff_prefix.mpr ⟨_, rfl⟩
  rw [← htrim] at hfields
  rw [loopBody_dash st res _ hs hdash, summaryStep_record _ res _ _ _ _ _ hdash hfields,
    hindent, TrimSuffix_colon]
  simp only [List.head?_cons, Option.map_some', Option.getD_some, Trim_parens D hDne hDh hDl]

theorem status_line_record_witness :
    loopBody
        { currentTest := "TestFoo".toList, lastName := [], started := true, inSummary := false,
          stopParsing := false }
        Result.empty
        (List.replicate 4 ' ' ++ "--- ".toList ++ "FAIL".toList ++ ": ".toList ++
          "TestFoo/Bar".toList ++ " (".toList ++ "0.01s".toList ++ ")".toList) =
      ({ currentTest := "TestFoo".toList, lastName := [], started := true, inSummary := true,
         stopParsing := false },
       { Result.empty with summaryRecords := Result.empty.summaryRecords ++
          [{ Status := "FAIL".toList, Name := "TestFoo/Bar".toList, Time := "0.01s".toList,
             Level := 1 }] }) :=
  status_line_record
    { currentTest := "TestFoo".toList, lastName := [], started := true, inSummary := false,
      stopParsing := false }
    Result.empty 4 "FAIL".toList "TestFoo/Bar".toList "0.01s".toList rfl (by decide) (by decide)
    (by decide) (by decide) (by decide) (by decide) (by decide)

/-- C4: the terminator ends the parse of a source. If `pre` contains a line
matching `^=== RUN\s+(.*)` and, later, a line whose trimmed text begins with
`---`, and the trimmed text of `f` is `FAIL`, then processing
`pre ++ f :: post` yields the same buffers, summary list and pass-through output
as processing `pre` alone, for every `post`, and ends with `stopParsing` set. -/
theorem terminator_ends_source (res : Result) (a b c post : List Str) (run dash f : Str)
    (hr : regexp.MatchString runRegex run = true) (hd : isDash dash = true)
    (hf : strings.TrimSpace f = "FAIL".toList) :
    processReader res ((a ++ run :: (b ++ dash :: c)) ++ f :: post) =
        processReader res (a ++ run :: (b ++ dash :: c)) ∧
      (processLines ReaderState.init res
        ((a ++ run :: (b ++ dash :: c)) ++ f :: post)).1.stopParsing = true := by
  obtain ⟨hi, hs⟩ := summary_reached res a b c run dash hr hd
  unfold processReader
  rw [processLines_append]
  generalize (processLines ReaderState.init res (a ++ run :: (b ++ dash :: c))) = p at hi hs ⊢
  by_cases h : p.1.stopParsing = true
  · rw [processLines_stopped _ _ _ h]
    exact ⟨rfl, h⟩
  · have h2 : p.1.stopParsing = false := by simpa using h
    have step : loopBody p.1 p.2 f = ({ p.1 with stopParsing := true }, p.2) := by
      rw [loopBody_summary _ _ _ hs hi]
      simp [summaryStep, hf]
    rw [processLines_cons_running _ _ _ _ h2, step, processLines_stopped _ _ _ rfl]
    exact ⟨rfl, rfl⟩

theorem terminator_ends_source_witness :
    processReader Result.empty
        ((["noise".toList] ++ "=== RUN TestA".toList ::
            (["hello".toList] ++ "--- PASS: TestA (0.00s)".toList :: [])) ++
          " FAIL ".toList :: ["--- FAIL: TestB (1.00s)".toList, "=== RUN TestC".toList]) =
        processReader Result.empty
          (["noise".toList] ++ "=== RUN TestA".toList ::
            (["hello".toList] ++ "--- PASS: TestA (0.00s)".toList :: [])) ∧
      (processLines ReaderState.init Result.empty
        ((["noise".toList] ++ "=== RUN TestA".toList ::
            (["hello".toList] ++ "--- PASS: TestA (0.00s)".toList :: [])) ++
          " FAIL ".toList :: ["--- FAIL: TestB (1.00s)".toList, "=== RUN TestC".toList])
        ).1.stopParsing = true :=
  terminator_ends_source Result.empty ["noise".toList] ["hello".toList] []
    ["--- FAIL: TestB (1.00s)".toList, "=== RUN TestC".toList] "=== RUN TestA".toList
    "--- PASS: TestA (0.00s)".toList " FAIL ".toList (by decide) (by decide) (by decide)

/-- C5: lines before the first run-start marker are discarded. For every line
sequence `pre` without a line matching `^=== RUN\s+(.*)`, processing `pre` from
the initial reader state changes neither that state nor the result (so a `---`
line or a `FAIL` line in `pre` adds no record and does not stop the parse), and
processing `pre ++ rest` yields the same buffers, summary list and pass-through
output as processing `rest` alone. -/
theorem prestart_lines_discarded (res : Result) (pre rest : List Str)
    (h : ∀ l ∈ pre, regexp.MatchString runRegex l = false) :
    processLines ReaderState.init res pre = (ReaderState.init, res) ∧
      processReader res (pre ++ rest) = processReader res rest := by
  have key := processLines_prestart res pre h
  refine ⟨key, ?_⟩
  unfold processReader
  rw [processLines_append, key]

theorem prestart_lines_discarded_witness :
    processLines ReaderState.init Result.empty
        ["--- FAIL: TestX (0.10s)".toList, " FAIL".toList, "=== RUN".toList, "x".toList] =
        (ReaderState.init, Result.empty) ∧
      processReader Result.empty
        (["--- FAIL: TestX (0.10s)".toList, " FAIL".toList, "=== RUN".toList, "x".toList] ++
          ["=== RUN TestA".toList, "hello".toList]) =
        processReader Result.empty ["=== RUN TestA".toList, "hello".toList] :=
  prestart_lines_discarded Result.empty
    ["--- FAIL: TestX (0.10s)".toList, " FAIL".toList, "=== RUN".toList, "x".toList]
    ["=== RUN TestA".toList, "hello".toList] (by decide)

/-- C6: the phase of a source never goes back, and summary mode is absorbing.
Over any lines the rank of the phase (PreStart, Streaming, Summary, Stopped) does
not decrease; and once the source has met a line matching `^=== RUN\s+(.*)` and,
later, a line whose trimmed text begins with `---`, every further sequence of
lines `later` leaves all test buffers, the pass-through output, the active test
and the base name as they were, keeps the source in summary mode, and keeps the
old summary list as a prefix of the new one. -/
theorem phase_monotone_summary_absorbing :
    (∀ (st : ReaderState) (res : Result) (ls : List Str),
        st.phase.rank ≤ (processLines st res ls).1.phase.rank) ∧
      ∀ (res : Result) (a b c later : List Str) (run dash : Str),
        regexp.MatchString runRegex run = true → isDash dash = true →
        (processLines ReaderState.init res ((a ++ run :: (b ++ dash :: c)) ++ later)).2.testBuffers
            = (processLines ReaderState.init res (a ++ run :: (b ++ dash :: c))).2.testBuffers ∧
          (processLines ReaderState.init res ((a ++ run :: (b ++ dash :: c)) ++ later)).2.stdout
            = (processLines ReaderState.init res (a ++ run :: (b ++ dash :: c))).2.stdout ∧
          (processLines ReaderState.init res
              ((a ++ run :: (b ++ dash :: c)) ++ later)).1.currentTest
            = (processLines ReaderState.init res (a ++ run :: (b ++ dash :: c))).1.currentTest ∧
          (processLines ReaderState.init res ((a ++ run :: (b ++ dash :: c)) ++ later)).1.lastName
            = (processLines ReaderState.init res (a ++ run :: (b ++ dash :: c))).1.lastName ∧
          (processLines ReaderState.init res
              ((a ++ run :: (b ++ dash :: c)) ++ later)).1.inSummary = true ∧
          (processLines ReaderState.init res (a ++ run :: (b ++ dash :: c))).2.summaryRecords <+:
            (processLines ReaderState.init res
              ((a ++ run :: (b ++ dash :: c)) ++ later)).2.summaryRecords := by
  constructor
  · intro st res ls
    induction ls generalizing st res with
    | nil => simp [processLines]
    | cons l ls ih =>
      by_cases h : st.stopParsing = true
      · rw [processLines_stopped st res _ h]
      · have h2 : st.stopParsing = false := by simpa using h
        rw [processLines_cons_running _ _ _ _ h2]
        exact le_trans (phase_rank_loopBody st res l) (ih _ _)
  · intro res a b c later run dash hr hd
    obtain ⟨hi, -⟩ := summary_reached res a b c run dash hr hd
    rw [processLines_append]
    exact processLines_in_summary _ _ later hi

theorem phase_monotone_summary_absorbing_witness :
    (processLines ReaderState.init Result.empty
        (([] ++ "=== RUN TestA".toList :: (["hello".toList] ++ "--- PASS: TestA (0.00s)".toList :: []))
          ++ ["=== RUN TestB".toList, "=== CONT TestB".toList, "text".toList])).2.testBuffers
      = (processLines ReaderState.init Result.empty
        ([] ++ "=== RUN TestA".toList ::
          (["hello".toList] ++ "--- PASS: TestA (0.00s)".toList :: []))).2.testBuffers :=
  (phase_monotone_summary_absorbing.2 Result.empty [] ["hello".toList] []
    ["=== RUN TestB".toList, "=== CONT TestB".toList, "text".toList] "=== RUN TestA".toList
    "--- PASS: TestA (0.00s)".toList (by decide) (by decide)).1

/-- C7: the name filter applies in every mode that prints summaries. For every
choice of flags, filter and combined result, what `main` renders is what it
renders, with the filter that accepts everything, from the result whose summary
list keeps only the records the filter accepts; and a record whose name the
filter rejects can be taken out of the summary list without changing the
output, so neither its summary line nor its buffer lines are printed. With a
filter that accepts only `TestFoo`, a result holding records and buffers for
`TestFoo` and `TestBar` is rendered, in each of the four modes, without any line
of `TestBar`. -/
theorem filter_applies_in_every_mode :
    (∀ (flags : Flags) (reTest : Str → Bool) (res : Result),
        render flags reTest res =
          render flags (fun _ => true)
            { res with summaryRecords := res.summaryRecords.filter (fun s => reTest s.Name) }) ∧
      (∀ (flags : Flags) (reTest : Str → Bool) (res : Result) (pre post : List TestSummary)
          (s : TestSummary), reTest s.Name = false → res.summaryRecords = pre ++ s :: post →
        render flags reTest res = render flags reTest { res with summaryRecords := pre ++ post }) ∧
      (∀ flags : Flags,
        render flags (fun n => n == "TestFoo".toList)
            { testBuffers := [("TestFoo".toList, ["foo out".toList]),
                              ("TestBar".toList, ["bar out".toList])],
              summaryRecords := [{ Status := "FAIL".toList, Name := "TestFoo".toList,
                                   Time := "0.01s".toList, Level := 0 },
                                 { Status := "FAIL".toList, Name := "TestBar".toList,
                                   Time := "0.02s".toList, Level := 0 }],
              stdout := [] } =
          render flags (fun _ => true)
            { testBuffers := [("TestFoo".toList, ["foo out".toList]),
                              ("TestBar".toList, ["bar out".toList])],
              summaryRecords := [{ Status := "FAIL".toList, Name := "TestFoo".toList,
                                   Time := "0.01s".toList, Level := 0 }],
              stdout := [] }) := by
  have general : ∀ (flags : Flags) (reTest : Str → Bool) (res : Result),
      render flags reTest res =
        render flags (fun _ => true)
          { res with summaryRecords := res.summaryRecords.filter (fun s => reTest s.Name) } := by
    intro flags reTest res
    unfold render
    simp only []
    rw [← serialiseLoop_filter, ← failuresLoop_filter, ← defaultLoop_filter]
  refine ⟨general, ?_, ?_⟩
  · intro flags reTest res pre post s hs hres
    rw [general flags reTest res, general flags reTest { res with summaryRecords := pre ++ post },
      hres]
    simp [List.filter_append, List.filter_cons, hs]
  · intro flags
    rw [general]
    rfl

theorem filter_applies_in_every_mode_witness :
    render { Flags.default with serialiseFlag := true } (fun n => n == "TestFoo".toList)
        { testBuffers := [("TestFoo".toList, ["foo out".toList]),
                          ("TestBar".toList, ["bar out".toList])],
          summaryRecords := [{ Status := "FAIL".toList, Name := "TestFoo".toList,
                               Time := "0.01s".toList, Level := 0 },
                             { Status := "FAIL".toList, Name := "TestBar".toList,
                               Time := "0.02s".toList, Level := 0 }],
          stdout := [] } =
      render { Flags.default with serialiseFlag := true } (fun _ => true)
        { testBuffers := [("TestFoo".toList, ["foo out".toList]),
                          ("TestBar".toList, ["bar out".toList])],
          summaryRecords := [{ Status := "FAIL".toList, Name := "TestFoo".toList,
                               Time := "0.01s".toList, Level := 0 }],
          stdout := [] } :=
  filter_applies_in_every_mode.2.2 { Flags.default with serialiseFlag := true }

/-- C8, as the code has it: in default mode the renderer prints the failures
and nothing else, after what the parse has passed through. With none of `-s`,
`-l`, `-L`, `-w` given, what `main` renders is, in the order of the summary
list, the line of `4 * Level` blanks, `--- FAIL: `, the name, ` (`, the duration
and `)` for each record whose status is `FAIL` and whose name the filter accepts;
the standard output of the whole run is the pass-through lines of the parse
followed by these lines, and it is these lines alone when no marker of the
input carries the empty name. On the input `=== RUN TestA`, `hello`,
`--- PASS: TestA (0.00s)`, `FAIL` with the filter that accepts everything the
standard output is empty; with `--- FAIL: TestA (0.00s)` as the third line it is
that one line. -/
theorem default_mode_output :
    (∀ (reTest : Str → Bool) (res : Result) (force : Bool),
        render { listFailures := false, listFailuresWithOutput := false, forceFlag := force,
                 serialiseFlag := false, writeFiles := false } reTest res =
          (res.summaryRecords.filter
              (fun s => decide (s.Status = "FAIL".toList) && reTest s.Name)).map
            (fun s => List.replicate (4 * s.Level) ' ' ++ "--- FAIL: ".toList ++ s.Name ++
              " (".toList ++ s.Time ++ ")".toList)) ∧
      (∀ (reTest : Str → Bool) (inputs : List (List Str)),
        mainStdout Flags.default reTest inputs =
          (inputs.foldl processReader Result.empty).stdout ++
            ((inputs.foldl processReader Result.empty).summaryRecords.filter
                (fun s => decide (s.Status = "FAIL".toList) && reTest s.Name)).map
              (fun s => List.replicate (4 * s.Level) ' ' ++ "--- FAIL: ".toList ++ s.Name ++
                " (".toList ++ s.Time ++ ")".toList)) ∧
      (∀ (reTest : Str → Bool) (inputs : List (List Str)),
        (∀ input ∈ inputs, ∀ line ∈ input,
          regexp.FindStringSubmatch runRegex line ≠ some [] ∧
            regexp.FindStringSubmatch nameRegex line ≠ some [] ∧
            regexp.FindStringSubmatch contRegex line ≠ some []) →
        mainStdout Flags.default reTest inputs =
          ((inputs.foldl processReader Result.empty).summaryRecords.filter
              (fun s => decide (s.Status = "FAIL".toList) && reTest s.Name)).map
            (fun s => List.replicate (4 * s.Level) ' ' ++ "--- FAIL: ".toList ++ s.Name ++
              " (".toList ++ s.Time ++ ")".toList)) ∧
      mainStdout Flags.default (fun _ => true)
          [["=== RUN TestA".toList, "hello".toList, "--- PASS: TestA (0.00s)".toList,
            "FAIL".toList]] = [] ∧
      mainStdout Flags.default (fun _ => true)
          [["=== RUN TestA".toList, "hello".toList, "--- FAIL: TestA (0.00s)".toList,
            "FAIL".toList]] = ["--- FAIL: TestA (0.00s)".toList] := by
  have whole : ∀ (reTest : Str → Bool) (inputs : List (List Str)),
      mainStdout Flags.default reTest inputs =
        (inputs.foldl processReader Result.empty).stdout ++
          ((inputs.foldl processReader Result.empty).summaryRecords.filter
              (fun s => decide (s.Status = "FAIL".toList) && reTest s.Name)).map
            (fun s => List.replicate (4 * s.Level) ' ' ++ "--- FAIL: ".toList ++ s.Name ++
              " (".toList ++ s.Time ++ ")".toList) := by
    intro reTest inputs
    rw [← defaultLoop_eq]
    rfl
  refine ⟨?_, whole, ?_, by decide, by decide⟩
  · intro reTest res force
    rw [← defaultLoop_eq]
    rfl
  · intro reTest inputs h
    rw [whole, foldl_processReader_stdout inputs Result.empty h]
    rfl

theorem default_mode_output_witness :
    mainStdout Flags.default (fun _ => true)
        [["=== RUN TestA".toList, "hello".toList, "--- FAIL: TestA (0.00s)".toList,
          "FAIL".toList]] =
      (([["=== RUN TestA".toList, "hello".toList, "--- FAIL: TestA (0.00s)".toList,
          "FAIL".toList]].foldl processReader Result.empty).summaryRecords.filter
          (fun s => decide (s.Status = "FAIL".toList) && (fun _ => true) s.Name)).map
        (fun s => List.replicate (4 * s.Level) ' ' ++ "--- FAIL: ".toList ++ s.Name ++
          " (".toList ++ s.Time ++ ")".toList) :=
  default_mode_output.2.2.1 (fun _ => true)
    [["=== RUN TestA".toList, "hello".toList, "--- FAIL: TestA (0.00s)".toList, "FAIL".toList]]
    (by decide)

/-- C8, as stated, fails: the output of a run in default mode can hold more
than the failure lines. On the input `=== RUN `, `hello`,
`--- FAIL: TestA (0.00s)`, `FAIL` with the filter that accepts everything, the
marker carries the empty name, `hello` is passed through during the parse, and
the standard output is `hello` followed by the failure line, while the summary
list holds the single record of `TestA`. -/
theorem default_mode_prints_passthrough :
    mainStdout Flags.default (fun _ => true)
        [["=== RUN ".toList, "hello".toList, "--- FAIL: TestA (0.00s)".toList,
          "FAIL".toList]] = ["hello".toList, "--- FAIL: TestA (0.00s)".toList] ∧
      (processReader Result.empty
        ["=== RUN ".toList, "hello".toList, "--- FAIL: TestA (0.00s)".toList,
          "FAIL".toList]).summaryRecords =
        [{ Status := "FAIL".toList, Name := "TestA".toList, Time := "0.00s".toList,
           Level := 0 }] ∧
      mainStdout Flags.default (fun _ => true)
        [["=== RUN ".toList, "hello".toList, "--- FAIL: TestA (0.00s)".toList,
          "FAIL".toList]] ≠ ["--- FAIL: TestA (0.00s)".toList] := by
  decide

/-- C9: a `=== CONT n` line is authoritative. In the streaming phase (started,
not in summary mode) every line that `^=== CONT\s+(.*)` matches with submatch `n`
sets both `currentTest` and `lastName` to `n`, whatever they were, and leaves
the buffers, the summary list and the output untouched; the line made of
`=== CONT`, a non-empty run of `\s` characters and a name `n` (no leading `\s`
character, no newline) is such a line. -/
theorem cont_sets_both (st : ReaderState) (res : Result)
    (hs : st.started = true) (hi : st.inSummary = false) :
    (∀ line n : Str, regexp.FindStringSubmatch contRegex line = some n →
        loopBody st res line = ({ st with currentTest := n, lastName := n }, res)) ∧
      ∀ ws n : Str, ws ≠ [] → (∀ c ∈ ws, regexp.reSpace c = true) →
        (∀ c, n.head? = some c → regexp.reSpace c = false) → '\n' ∉ n →
        loopBody st res (contRegex ++ ws ++ n) =
          ({ st with currentTest := n, lastName := n }, res) := by
  refine ⟨fun line n h => loopBody_cont st res line n hs hi h, ?_⟩
  intro ws n hne hws hn hnl
  exact loopBody_cont st res _ n hs hi (FindStringSubmatch_marker contRegex ws n hne hws hn hnl)

theorem cont_sets_both_witness :
    loopBody
        { currentTest := "TestA".toList, lastName := "TestB/Sub".toList, started := true,
          inSummary := false, stopParsing := false }
        { testBuffers := [("TestA".toList, ["x".toList])], summaryRecords := [], stdout := [] }
        (contRegex ++ " ".toList ++ "TestB".toList) =
      ({ currentTest := "TestB".toList, lastName := "TestB".toList, started := true,
         inSummary := false, stopParsing := false },
       { testBuffers := [("TestA".toList, ["x".toList])], summaryRecords := [], stdout := [] }) :=
  (cont_sets_both
    { currentTest := "TestA".toList, lastName := "TestB/Sub".toList, started := true,
      inSummary := false, stopParsing := false }
    { testBuffers := [("TestA".toList, ["x".toList])], summaryRecords := [], stdout := [] }
    rfl rfl).2 " ".toList "TestB".toList (by decide) (by decide) (by decide) (by decide)

/-- C10: a `---` line in summary mode appends exactly one record when the line
has at least three white-space-delimited tokens and nothing when it has fewer;
with fewer, the reader state and the whole result (summary list, buffers,
output) are unchanged. With exactly three tokens the appended record has the
empty duration. The reader state is never changed by such a line. -/
theorem status_line_token_count (st : ReaderState) (res : Result) (line : Str)
    (hs : st.started = true) (hi : st.inSummary = true) (hd : isDash line = true) :
    (3 ≤ (strings.Fields line).length →
        ∃ s : TestSummary,
          loopBody st res line =
            (st, { res with summaryRecords := res.summaryRecords ++ [s] }) ∧
          ((strings.Fields line).length = 3 → s.Time = [])) ∧
      ((strings.Fields line).length < 3 → loopBody st res line = (st, res)) := by
  rw [loopBody_summary st res line hs hi, ← Fields_TrimSpace line]
  constructor
  · intro h3
    obtain ⟨fs, hfs⟩ : ∃ fs, strings.Fields (strings.TrimSpace line) = fs := ⟨_, rfl⟩
    rw [hfs] at h3
    match fs, hfs, h3 with
    | f0 :: f1 :: f2 :: more, hfs, _ =>
      refine ⟨_, summaryStep_record st res line f0 f1 f2 more hd hfs, ?_⟩
      intro h
      rw [hfs] at h
      cases more with
      | nil => rfl
      | cons x xs => simp at h
  · intro hlt
    exact summaryStep_short st res line hd hlt

theorem status_line_token_count_witness :
    (3 ≤ (strings.Fields "--- FAIL: Name".toList).length →
        ∃ s : TestSummary,
          loopBody
              { currentTest := [], lastName := [], started := true, inSummary := true,
                stopParsing := false }
              Result.empty "--- FAIL: Name".toList =
            ({ currentTest := [], lastName := [], started := true, inSummary := true,
               stopParsing := false },
             { Result.empty with summaryRecords := Result.empty.summaryRecords ++ [s] }) ∧
          ((strings.Fields "--- FAIL: Name".toList).length = 3 → s.Time = [])) ∧
      ((strings.Fields "--- FAIL: Name".toList).length < 3 →
        loopBody
            { currentTest := [], lastName := [], started := true, inSummary := true,
              stopParsing := false }
            Result.empty "--- FAIL: Name".toList =
          ({ currentTest := [], lastName := [], started := true, inSummary := true,
             stopParsing := false }, Result.empty)) :=
  status_line_token_count
    { currentTest := [], lastName := [], started := true, inSummary := true,
      stopParsing := false }
    Result.empty "--- FAIL: Name".toList rfl rfl (by decide)

/-- C11, as the code has it: the three marker expressions are anchored at the
start of the raw line, the pause test is not. In the streaming phase a line
made of a non-empty run of white space, then `=== RUN`, `=== NAME` or
`=== CONT`, then anything, is plain text: the reader state (active test, base
name) is unchanged, and the line is appended verbatim to the buffer of the
active test when that name is non-empty, and printed to the pass-through output
when it is empty. A line made of white space, `=== PAUSE` and anything is still
a pause line: it is dropped, and state and result are unchanged. -/
theorem leading_space_markers (st : ReaderState) (res : Result) (ws tail : Str)
    (hs : st.started = true) (hi : st.inSummary = false) (hne : ws ≠ [])
    (hws : ∀ c ∈ ws, unicode.IsSpace c = true) :
    (∀ lit : Str, lit = runRegex ∨ lit = nameRegex ∨ lit = contRegex →
        (loopBody st res (ws ++ lit ++ tail)).1 = st ∧
          (st.currentTest ≠ [] →
            (loopBody st res (ws ++ lit ++ tail)).2.testBuffers =
                mapSet res.testBuffers st.currentTest
                  (bufferOf res st.currentTest ++ [ws ++ lit ++ tail]) ∧
              (loopBody st res (ws ++ lit ++ tail)).2.stdout = res.stdout) ∧
          (st.currentTest = [] →
            (loopBody st res (ws ++ lit ++ tail)).2.testBuffers = res.testBuffers ∧
              (loopBody st res (ws ++ lit ++ tail)).2.stdout =
                res.stdout ++ [ws ++ lit ++ tail]) ∧
          (loopBody st res (ws ++ lit ++ tail)).2.summaryRecords = res.summaryRecords) ∧
      loopBody st res (ws ++ "=== PAUSE".toList ++ tail) = (st, res) := by
  constructor
  · intro lit hl
    obtain ⟨hm, hd⟩ := spaced_marker_plain ws lit tail hne hws hl
    rw [loopBody_stream st res _ hs hi hd, streamStep_plain st res _ hm]
    by_cases hc : st.currentTest = []
    · rw [if_neg (by simpa using hc)]
      exact ⟨rfl, fun h => absurd hc h, fun _ => ⟨rfl, rfl⟩, rfl⟩
    · rw [if_pos hc]
      exact ⟨rfl, fun _ => ⟨rfl, rfl⟩, fun h => absurd h hc, rfl⟩
  · obtain ⟨hp, hd⟩ := spaced_pause ws tail hws
    rw [loopBody_stream st res _ hs hi hd]
    unfold isPause at hp
    unfold streamStep
    rw [if_pos hp]

theorem leading_space_markers_witness :
    loopBody
        { currentTest := "TestA".toList, lastName := "TestA".toList, started := true,
          inSummary := false, stopParsing := false }
        { testBuffers := [("TestA".toList, ["x".toList])], summaryRecords := [], stdout := [] }
        ("  ".toList ++ "=== PAUSE".toList ++ " TestA".toList) =
      ({ currentTest := "TestA".toList, lastName := "TestA".toList, started := true,
         inSummary := false, stopParsing := false },
       { testBuffers := [("TestA".toList, ["x".toList])], summaryRecords := [], stdout := [] }) :=
  (leading_space_markers
    { currentTest := "TestA".toList, lastName := "TestA".toList, started := true,
      inSummary := false, stopParsing := false }
    { testBuffers := [("TestA".toList, ["x".toList])], summaryRecords := [], stdout := [] }
    "  ".toList " TestA".toList rfl rfl (by decide) (by decide)).2

/-- C11, as stated, fails for the pause marker: in the streaming phase with the
active test `TestA`, the line `  === PAUSE TestA`, which has two blanks before
`=== PAUSE`, is not appended to the buffer of `TestA`; the line
`  === RUN TestB` in the same state is. -/
theorem leading_space_pause_dropped :
    (loopBody
        { currentTest := "TestA".toList, lastName := "TestA".toList, started := true,
          inSummary := false, stopParsing := false }
        { testBuffers := [("TestA".toList, [])], summaryRecords := [], stdout := [] }
        "  === PAUSE TestA".toList).2.testBuffers = [("TestA".toList, [])] ∧
      (loopBody
        { currentTest := "TestA".toList, lastName := "TestA".toList, started := true,
          inSummary := false, stopParsing := false }
        { testBuffers := [("TestA".toList, [])], summaryRecords := [], stdout := [] }
        "  === RUN TestB".toList).2.testBuffers =
        [("TestA".toList, ["  === RUN TestB".toList])] := by
  decide

/-- C12: processing sources in sequence concatenates their results. For every
result `res` and every line sequence `B`, processing `B` into `res` gives the
summary list of `res` followed by the summary list of `B` processed alone from
the empty result, for every test name the buffer of `res` followed by the
buffer of `B` alone, and likewise for the pass-through output; the reader ends
in the state it reaches on `B` alone. In particular this holds for `res` the
result of a first source `A`, as `main` processes two sources `A`, `B`. -/
theorem sources_concatenate :
    (∀ (res : Result) (B : List Str),
        (processReader res B).summaryRecords =
            res.summaryRecords ++ (processReader Result.empty B).summaryRecords ∧
          (∀ n, bufferOf (processReader res B) n =
            bufferOf res n ++ bufferOf (processReader Result.empty B) n) ∧
          (processReader res B).stdout = res.stdout ++ (processReader Result.empty B).stdout ∧
          (processLines ReaderState.init res B).1 =
            (processLines ReaderState.init Result.empty B).1) ∧
      ∀ A B : List Str,
        ([A, B].foldl processReader Result.empty).summaryRecords =
            (processReader Result.empty A).summaryRecords ++
              (processReader Result.empty B).summaryRecords ∧
          ∀ n, bufferOf ([A, B].foldl processReader Result.empty) n =
            bufferOf (processReader Result.empty A) n ++
              bufferOf (processReader Result.empty B) n := by
  have general : ∀ (res : Result) (B : List Str),
      (processReader res B).summaryRecords =
          res.summaryRecords ++ (processReader Result.empty B).summaryRecords ∧
        (∀ n, bufferOf (processReader res B) n =
          bufferOf res n ++ bufferOf (processReader Result.empty B) n) ∧
        (processReader res B).stdout = res.stdout ++ (processReader Result.empty B).stdout ∧
        (processLines ReaderState.init res B).1 =
          (processLines ReaderState.init Result.empty B).1 := by
    intro res B
    obtain ⟨st2, add, out, new, h⟩ := processLines_delta ReaderState.init B
    obtain ⟨a1, a2, a3, a4⟩ := h res
    obtain ⟨e1, e2, e3, e4⟩ := h Result.empty
    unfold processReader
    refine ⟨?_, fun n => ?_, ?_, a1.trans e1.symm⟩
    · rw [a4, e4]; rfl
    · rw [a2 n, e2 n]; rfl
    · rw [a3, e3]; rfl
  refine ⟨general, fun A B => ?_⟩
  obtain ⟨g1, g2, -, -⟩ := general (processReader Result.empty A) B
  exact ⟨g1, g2⟩

/-- C13: test buffers are append-only. For every reader state, result and
line, and over every sequence of lines, a test name that has a buffer still has
one afterwards, and the old contents are a prefix of the new ones. Outside
summary mode a line that `^=== RUN\s+(.*)` matches with submatch `n` leaves the
whole map of buffers as it is when `n` has a buffer, and gives `n` the empty
buffer when it has none. -/
theorem buffers_append_only :
    (∀ (st : ReaderState) (res : Result) (line n : Str) (old : List Str),
        mapGet res.testBuffers n = some old →
        ∃ more, mapGet (loopBody st res line).2.testBuffers n = some (old ++ more)) ∧
      (∀ (st : ReaderState) (res : Result) (ls : List Str) (n : Str) (old : List Str),
        mapGet res.testBuffers n = some old →
        ∃ more, mapGet (processLines st res ls).2.testBuffers n = some (old ++ more)) ∧
      ∀ (st : ReaderState) (res : Result) (line n : Str),
        st.inSummary = false → regexp.FindStringSubmatch runRegex line = some n →
        (∀ old, mapGet res.testBuffers n = some old →
            (loopBody st res line).2.testBuffers = res.testBuffers) ∧
          (mapGet res.testBuffers n = none →
            mapGet (loopBody st res line).2.testBuffers n = some []) := by
  refine ⟨loopBody_keeps, processLines_keeps, ?_⟩
  intro st res line n hi hr
  rw [loopBody_run st res line n hi hr]
  constructor
  · intro old h
    have hex : (mapGet res.testBuffers n).isSome = true := by rw [h]; rfl
    rw [if_pos hex]
  · intro h
    have hex : ¬ (mapGet res.testBuffers n).isSome = true := by rw [h]; simp
    rw [if_neg hex]
    simp [mapGet_mapSet]

theorem buffers_append_only_witness :
    (loopBody
        { currentTest := "TestB".toList, lastName := [], started := true, inSummary := false,
          stopParsing := false }
        { testBuffers := [("TestA".toList, ["x".toList, "y".toList])], summaryRecords := [],
          stdout := [] }
        "=== RUN TestA".toList).2.testBuffers = [("TestA".toList, ["x".toList, "y".toList])] :=
  (buffers_append_only.2.2
    { currentTest := "TestB".toList, lastName := [], started := true, inSummary := false,
      stopParsing := false }
    { testBuffers := [("TestA".toList, ["x".toList, "y".toList])], summaryRecords := [],
      stdout := [] }
    "=== RUN TestA".toList "TestA".toList rfl (by decide)).1 ["x".toList, "y".toList] rfl

/-- C14: summary records are kept in trailer order. For an input made of lines
`pre` without a run-start marker, a line matching `^=== RUN\s+(.*)`, lines `mid`
none of which is a `---` line, and a trailer that is empty or begins with a
`---` line: the summary list after the source is the list before it followed by
the records of the trailer lines that come before the first terminator (trimmed
text `FAIL`), one for each line from which a record is built and in the order
of the lines; a record is built from a line exactly when its trimmed text
begins with `---` and it has at least three tokens. An input without a
run-start marker leaves the summary list as it was. -/
theorem summaries_in_trailer_order :
    (∀ (res : Result) (pre mid trailer : List Str) (run : Str),
        (∀ l ∈ pre, regexp.MatchString runRegex l = false) →
        regexp.MatchString runRegex run = true →
        (∀ l ∈ mid, isDash l = false) →
        (∀ d, trailer.head? = some d → isDash d = true) →
        (processReader res (pre ++ run :: (mid ++ trailer))).summaryRecords =
          res.summaryRecords ++
            (trailer.takeWhile (fun l => !isTerminator l)).filterMap summaryOf) ∧
      (∀ line : Str, (summaryOf line).isSome = true ↔
        isDash line = true ∧ 3 ≤ (strings.Fields line).length) ∧
      ∀ (res : Result) (pre : List Str),
        (∀ l ∈ pre, regexp.MatchString runRegex l = false) →
        (processReader res pre).summaryRecords = res.summaryRecords := by
  refine ⟨?_, summaryOf_isSome, ?_⟩
  · intro res pre mid trailer run hpre hrun hmid htr
    obtain ⟨r1, r2, r3, -, -⟩ := loopBody_first_run res run hrun
    have r6 : (loopBody ReaderState.init res run).2.summaryRecords = res.summaryRecords := by
      obtain ⟨name, hname⟩ := Option.isSome_iff_exists.mp hrun
      rw [loopBody_run ReaderState.init res run name rfl hname]
      split <;> rfl
    unfold processReader
    rw [processLines_append, processLines_prestart res pre hpre,
      processLines_cons_running _ _ _ _ rfl, processLines_append]
    generalize loopBody ReaderState.init res run = p1 at r1 r2 r3 r6
    obtain ⟨a1, -, a3, -, -, -, a7⟩ := processLines_attribution p1.1 p1.2 mid r1 r2 r3 hmid
    rw [processLines_trailer _ _ trailer a1 a3 htr, a7, r6]
  · intro res pre hpre
    unfold processReader
    rw [processLines_prestart res pre hpre]

theorem summaries_in_trailer_order_witness :
    (processReader Result.empty (["noise".toList] ++ "=== RUN TestA".toList ::
        (["hello".toList] ++
          ["--- FAIL: TestA (0.10s)".toList, "    --- PASS: TestA/Sub (0.00s)".toList,
            "--- short".toList, "ok".toList, "FAIL".toList,
            "--- PASS: TestZ (9.00s)".toList]))).summaryRecords =
      Result.empty.summaryRecords ++
        (["--- FAIL: TestA (0.10s)".toList, "    --- PASS: TestA/Sub (0.00s)".toList,
            "--- short".toList, "ok".toList, "FAIL".toList,
            "--- PASS: TestZ (9.00s)".toList].takeWhile
          (fun l => !isTerminator l)).filterMap summaryOf :=
  summaries_in_trailer_order.1 Result.empty ["noise".toList] ["hello".toList]
    ["--- FAIL: TestA (0.10s)".toList, "    --- PASS: TestA/Sub (0.00s)".toList,
      "--- short".toList, "ok".toList, "FAIL".toList, "--- PASS: TestZ (9.00s)".toList]
    "=== RUN TestA".toList (by decide) (by decide) (by decide) (by decide)

/-- C15, as the code has it: in serialise-all mode (`-s` given, whatever the
other flags) the output is, for each summary record whose name the filter
accepts and in the order of the summary list, the line of `4 * Level` blanks,
`--- `, the status, `: `, the name, ` (`, the duration and `)`, followed by
every line of the buffer of that name (none when it has no buffer), in buffer
order, each after `4 * Level + 4` blanks. -/
theorem serialise_mode_output (flags : Flags) (reTest : Str → Bool) (res : Result)
    (h : flags.serialiseFlag = true) :
    render flags reTest res =
      (res.summaryRecords.filter (fun s => reTest s.Name)).flatMap (fun s =>
        (List.replicate (4 * s.Level) ' ' ++ "--- ".toList ++ s.Status ++ ": ".toList ++ s.Name ++
            " (".toList ++ s.Time ++ ")".toList) ::
          (bufferOf res s.Name).map (fun line => List.replicate (4 * s.Level + 4) ' ' ++ line))
      := by
  unfold render
  rw [if_pos h, serialiseLoop_eq]
  rfl

theorem serialise_mode_output_witness :
    render { Flags.default with serialiseFlag := true } (fun _ => true)
        { testBuffers := [("TestA/Sub".toList, ["out".toList])],
          summaryRecords := [{ Status := "PASS".toList, Name := "TestA/Sub".toList,
                               Time := "0.01s".toList, Level := 1 }],
          stdout := [] } =
      (([{ Status := "PASS".toList, Name := "TestA/Sub".toList, Time := "0.01s".toList,
           Level := 1 }] : List TestSummary).filter (fun _ => true)).flatMap (fun s =>
        (List.replicate (4 * s.Level) ' ' ++ "--- ".toList ++ s.Status ++ ": ".toList ++ s.Name ++
            " (".toList ++ s.Time ++ ")".toList) ::
          (bufferOf
              { testBuffers := [("TestA/Sub".toList, ["out".toList])],
                summaryRecords := [{ Status := "PASS".toList, Name := "TestA/Sub".toList,
                                     Time := "0.01s".toList, Level := 1 }],
                stdout := [] } s.Name).map
            (fun line => List.replicate (4 * s.Level + 4) ' ' ++ line)) :=
  serialise_mode_output { Flags.default with serialiseFlag := true } (fun _ => true)
    { testBuffers := [("TestA/Sub".toList, ["out".toList])],
      summaryRecords := [{ Status := "PASS".toList, Name := "TestA/Sub".toList,
                           Time := "0.01s".toList, Level := 1 }],
      stdout := [] } rfl

/-- C15, as stated, fails: a buffer line is printed one indent step deeper than
the summary line of its record. For a record of level 1 with the buffer line
`out` the output is the summary line after 4 blanks and then `out` after 8
blanks, not after 4. -/
theorem serialise_buffer_line_indent :
    render { Flags.default with serialiseFlag := true } (fun _ => true)
        { testBuffers := [("TestA/Sub".toList, ["out".toList])],
          summaryRecords := [{ Status := "PASS".toList, Name := "TestA/Sub".toList,
                               Time := "0.01s".toList, Level := 1 }],
          stdout := [] } =
        ["    --- PASS: TestA/Sub (0.01s)".toList, "        out".toList] ∧
      render { Flags.default with serialiseFlag := true } (fun _ => true)
        { testBuffers := [("TestA/Sub".toList, ["out".toList])],
          summaryRecords := [{ Status := "PASS".toList, Name := "TestA/Sub".toList,
                               Time := "0.01s".toList, Level := 1 }],
          stdout := [] } ≠
        ["    --- PASS: TestA/Sub (0.01s)".toList, "    out".toList] := by
  decide

/-- C16: without `-F` the write mode checks every target before it creates
anything. With the file system given as the list `existing` of the paths that
exist, for every path-joining function, every outcome of the later system calls
and every order in which the two `range` loops visit the map: when the target
directory `join [outputDir, testName]` of some buffered test exists, the mode
ends with exit status 1 and without any effect on the file system, no
directory made and no file created or written; hence whenever the mode has any
effect, no target existed. -/
theorem write_mode_checks_first :
    (∀ (join : List Str → Str) (existing : List Str) (mkdirOk createOk : Str → Bool)
        (outputDir : Str) (testBuffers iter1 iter2 : Buffers),
        iter1.Perm testBuffers →
        (∃ p ∈ testBuffers, join [outputDir, p.1] ∈ existing) →
        writeFilesMode join existing mkdirOk createOk false outputDir iter1 iter2 =
          { exitCode := 1, effects := [] }) ∧
      ∀ (join : List Str → Str) (existing : List Str) (mkdirOk createOk : Str → Bool)
        (outputDir : Str) (testBuffers iter1 iter2 : Buffers),
        iter1.Perm testBuffers →
        (writeFilesMode join existing mkdirOk createOk false outputDir iter1 iter2).effects ≠ [] →
        ∀ p ∈ testBuffers, join [outputDir, p.1] ∉ existing := by
  have abort : ∀ (join : List Str → Str) (existing : List Str) (mkdirOk createOk : Str → Bool)
      (outputDir : Str) (testBuffers iter1 iter2 : Buffers),
      iter1.Perm testBuffers →
      (∃ p ∈ testBuffers, join [outputDir, p.1] ∈ existing) →
      writeFilesMode join existing mkdirOk createOk false outputDir iter1 iter2 =
        { exitCode := 1, effects := [] } := by
    intro join existing mkdirOk createOk outputDir testBuffers iter1 iter2 hperm hex
    obtain ⟨p, hp, hpe⟩ := hex
    have hany : (iter1.map (fun p => join [outputDir, p.1])).any
        (fun dirPath => existing.contains dirPath) = true := by
      rw [List.any_eq_true]
      refine ⟨join [outputDir, p.1], ?_, ?_⟩
      · exact List.mem_map.mpr ⟨p, hperm.mem_iff.mpr hp, rfl⟩
      · simpa using hpe
    unfold writeFilesMode
    simp only [hany, Bool.not_false, Bool.and_self, if_true]
  refine ⟨abort, ?_⟩
  intro join existing mkdirOk createOk outputDir testBuffers iter1 iter2 hperm heff p hp hpe
  apply heff
  rw [abort join existing mkdirOk createOk outputDir testBuffers iter1 iter2 hperm ⟨p, hp, hpe⟩]

theorem write_mode_checks_first_witness :
    writeFilesMode (fun parts => List.intercalate "/".toList parts) ["out/TestA".toList]
        (fun _ => true) (fun _ => true) false "out".toList
        [("TestA/Sub".toList, ["b".toList]), ("TestA".toList, ["a".toList])]
        [("TestA".toList, ["a".toList]), ("TestA/Sub".toList, ["b".toList])] =
      { exitCode := 1, effects := [] } :=
  write_mode_checks_first.1 (fun parts => List.intercalate "/".toList parts)
    ["out/TestA".toList] (fun _ => true) (fun _ => true) "out".toList
    [("TestA".toList, ["a".toList]), ("TestA/Sub".toList, ["b".toList])]
    [("TestA/Sub".toList, ["b".toList]), ("TestA".toList, ["a".toList])]
    [("TestA".toList, ["a".toList]), ("TestA/Sub".toList, ["b".toList])]
    (List.Perm.swap _ _ _) ⟨("TestA".toList, ["a".toList]), by decide, by decide⟩

/-- C17: parsing a well-formed status line and rendering the record gives the
line back. For a started reader, every `k` and all `S`, `N`, `D` without white
space, `N` non-empty, `D` neither beginning nor ending with a parenthesis, the
line made of `4 * k` blanks and `--- S: N (D)` appends exactly one record, and
the summary line printed for that record, `4 * Level` blanks, `--- `, status,
`: `, name, ` (`, duration, `)`, is that line. -/
theorem status_line_round_trip (st : ReaderState) (res : Result) (k : Nat) (S N D : Str)
    (hs : st.started = true)
    (hS : ∀ c ∈ S, unicode.IsSpace c = false) (hN : ∀ c ∈ N, unicode.IsSpace c = false)
    (hD : ∀ c ∈ D, unicode.IsSpace c = false) (hNne : N ≠ [])
    (hDh : ∀ c, D.head? = some c → c ≠ '(' ∧ c ≠ ')')
    (hDl : ∀ c, D.getLast? = some c → c ≠ '(' ∧ c ≠ ')') :
    ∃ s : TestSummary,
      (loopBody st res (List.replicate (4 * k) ' ' ++ "--- ".toList ++ S ++ ": ".toList ++ N ++
          " (".toList ++ D ++ ")".toList)).2.summaryRecords = res.summaryRecords ++ [s] ∧
        summaryLine (strings.Repeat "    ".toList s.Level) s =
          List.replicate (4 * k) ' ' ++ "--- ".toList ++ S ++ ": ".toList ++ N ++ " (".toList ++
            D ++ ")".toList := by
  obtain ⟨hdash, -, -⟩ := status_line_shape (4 * k) S N D hS hN hD hNne
  have hso := summaryOf_status_line (4 * k) S N D hS hN hD hNne hDh hDl
  have hnt : ¬ isTerminator (List.replicate (4 * k) ' ' ++ "--- ".toList ++ S ++ ": ".toList ++
      N ++ " (".toList ++ D ++ ")".toList) = true := by
    have h1 := hdash
    unfold isDash at h1
    have := dash_not_FAIL _ h1
    unfold isTerminator
    simpa using this
  refine ⟨{ Status := S, Name := N, Time := D, Level := k }, ?_, ?_⟩
  · rw [loopBody_dash st res _ hs hdash, summaryStep_eq, if_neg hnt, hso]
    have : 4 * k / 4 = k := by omega
    simp [Option.toList, this]
  · rw [Repeat_blanks]
    simp [summaryLine]

theorem status_line_round_trip_witness :
    ∃ s : TestSummary,
      (loopBody
          { currentTest := [], lastName := [], started := true, inSummary := true,
            stopParsing := false }
          Result.empty
          (List.replicate (4 * 2) ' ' ++ "--- ".toList ++ "FAIL".toList ++ ": ".toList ++
            "TestFoo/Bar/Baz".toList ++ " (".toList ++ "0.01s".toList ++ ")".toList)
        ).2.summaryRecords = Result.empty.summaryRecords ++ [s] ∧
        summaryLine (strings.Repeat "    ".toList s.Level) s =
          List.replicate (4 * 2) ' ' ++ "--- ".toList ++ "FAIL".toList ++ ": ".toList ++
            "TestFoo/Bar/Baz".toList ++ " (".toList ++ "0.01s".toList ++ ")".toList :=
  status_line_round_trip
    { currentTest := [], lastName := [], started := true, inSummary := true,
      stopParsing := false }
    Result.empty 2 "FAIL".toList "TestFoo/Bar/Baz".toList "0.01s".toList rfl (by decide)
    (by decide) (by decide) (by decide) (by decide) (by decide)

/-- C18: only plain lines of the input are stored. For every input processed
from the empty result, every line of every buffer is a line of the input that
none of `^=== RUN\s+(.*)`, `^=== NAME\s+(.*)`, `^=== CONT\s+(.*)` matches, whose
trimmed text does not begin with `=== PAUSE` and whose trimmed text does not begin
with `---`. -/
theorem stored_lines_are_plain (input : List Str) :
    ∀ p ∈ (processReader Result.empty input).testBuffers, ∀ l ∈ p.2,
      l ∈ input ∧ regexp.MatchString runRegex l = false ∧
        regexp.MatchString nameRegex l = false ∧ regexp.MatchString contRegex l = false ∧
        isPause l = false ∧ isDash l = false := by
  have key := processLines_stored
    (fun l => l ∈ input ∧ isMarker l = false ∧ isDash l = false)
    ReaderState.init Result.empty input
    (fun p hp => by simp [Result.empty] at hp)
    (fun line hl hm hd => ⟨hl, hm, hd⟩)
  intro p hp l hl
  obtain ⟨h1, h2, h3⟩ := key p hp l hl
  simp only [isMarker, Bool.or_eq_false_iff] at h2
  exact ⟨h1, h2.2, h2.1.2, h2.1.1.2, h2.1.1.1, h3⟩

theorem stored_lines_are_plain_witness :
    "hello".toList ∈ ["=== RUN TestA".toList, "hello".toList, "=== PAUSE TestA".toList] ∧
      regexp.MatchString runRegex "hello".toList = false ∧
      regexp.MatchString nameRegex "hello".toList = false ∧
      regexp.MatchString contRegex "hello".toList = false ∧
      isPause "hello".toList = false ∧ isDash "hello".toList = false :=
  stored_lines_are_plain ["=== RUN TestA".toList, "hello".toList, "=== PAUSE TestA".toList]
    ("TestA".toList, ["hello".toList]) (by decide) "hello".toList (by decide)

/-- C19, as the code has it: the pass-through branch is unreachable when the
marker names are not empty. For every input no line of which is matched by
`^=== RUN\s+(.*)`, `^=== NAME\s+(.*)` or `^=== CONT\s+(.*)` with the empty
submatch, nothing is printed to the pass-through output, and after every prefix
of the input a reader in the streaming phase has a non-empty active test.
Conversely, in the streaming phase a `=== RUN` or `=== CONT` marker with the
empty name makes the active test empty, and so does a `=== NAME` marker with the
empty name unless the base name begins with `/`; and while the active test is
empty a plain line is printed to the pass-through output and the buffers are
unchanged. -/
theorem passthrough_only_after_empty_name :
    (∀ (res : Result) (input : List Str),
        (∀ line ∈ input, regexp.FindStringSubmatch runRegex line ≠ some [] ∧
          regexp.FindStringSubmatch nameRegex line ≠ some [] ∧
          regexp.FindStringSubmatch contRegex line ≠ some []) →
        (processReader res input).stdout = res.stdout ∧
          ∀ pre post, input = pre ++ post →
            (processLines ReaderState.init res pre).1.started = true →
            (processLines ReaderState.init res pre).1.inSummary = false →
            (processLines ReaderState.init res pre).1.currentTest ≠ []) ∧
      (∀ (st : ReaderState) (res : Result) (line : Str),
        st.started = true → st.inSummary = false →
        (regexp.FindStringSubmatch runRegex line = some [] ∨
          regexp.FindStringSubmatch contRegex line = some [] ∨
          (regexp.FindStringSubmatch nameRegex line = some [] ∧ ¬ (['/'] <+: st.lastName))) →
        (loopBody st res line).1.currentTest = []) ∧
      ∀ (st : ReaderState) (res : Result) (pl : Str),
        st.started = true → st.inSummary = false → st.currentTest = [] →
        isMarker pl = false → isDash pl = false →
        (loopBody st res pl).1 = st ∧ (loopBody st res pl).2.testBuffers = res.testBuffers ∧
          (loopBody st res pl).2.stdout = res.stdout ++ [pl] := by
  have conv : ∀ line : Str, (regexp.FindStringSubmatch runRegex line ≠ some [] ∧
      regexp.FindStringSubmatch nameRegex line ≠ some [] ∧
      regexp.FindStringSubmatch contRegex line ≠ some []) →
      ∀ lit, lit = runRegex ∨ lit = nameRegex ∨ lit = contRegex →
        ∀ n, regexp.FindStringSubmatch lit line = some n → n ≠ [] := by
    intro line h lit hlit n hn e
    rw [e] at hn
    rcases hlit with rfl | rfl | rfl
    · exact h.1 hn
    · exact h.2.1 hn
    · exact h.2.2 hn
  refine ⟨?_, ?_, ?_⟩
  · intro res input hin
    constructor
    · exact (processLines_nonempty ReaderState.init res input (fun h => by cases h)
        (fun line hl => conv line (hin line hl))).2
    · intro pre post e
      exact (processLines_nonempty ReaderState.init res pre (fun h => by cases h)
        (fun line hl => conv line (hin line (by rw [e]; exact List.mem_append_left _ hl)))).1
  · intro st res line hs hi h
    rcases h with h | h | ⟨h, hl⟩
    · rw [loopBody_run st res line [] hi h]
    · rw [loopBody_cont st res line [] hs hi h]
    · rw [loopBody_name st res line [] hs hi h, if_neg]
      intro hc
      apply hl
      have := hc.2
      unfold strings.HasPrefix at this
      exact List.isPrefixOf_iff_prefix.mp this
  · intro st res pl hs hi hc hm hd
    rw [loopBody_stream st res pl hs hi hd, streamStep_plain st res pl hm,
      if_neg (by simpa using hc)]
    exact ⟨rfl, rfl, rfl⟩

theorem passthrough_only_after_empty_name_witness :
    (processReader Result.empty
        ["=== RUN TestA".toList, "hello".toList, "=== NAME TestA".toList,
          "world".toList]).stdout = Result.empty.stdout :=
  (passthrough_only_after_empty_name.1 Result.empty
    ["=== RUN TestA".toList, "hello".toList, "=== NAME TestA".toList, "world".toList]
    (by decide)).1

/-- C19, as stated, fails for the `=== NAME` marker: after `=== CONT /x` the base
name is `/x`, the marker `=== NAME ` carries the empty name, and the active test
becomes `/x`, not the empty name; the plain line that follows is put in the
buffer of `/x` and nothing is passed through. -/
theorem empty_name_marker_keeps_active_test :
    regexp.FindStringSubmatch nameRegex "=== NAME ".toList = some [] ∧
      (processLines ReaderState.init Result.empty
        ["=== RUN T".toList, "=== CONT /x".toList, "=== NAME ".toList]).1.currentTest =
        "/x".toList ∧
      (processReader Result.empty
        ["=== RUN T".toList, "=== CONT /x".toList, "=== NAME ".toList,
          "plain".toList]).testBuffers = [("T".toList, []), ("/x".toList, ["plain".toList])] ∧
      (processReader Result.empty
        ["=== RUN T".toList, "=== CONT /x".toList, "=== NAME ".toList,
          "plain".toList]).stdout = [] := by
  decide
